import Mathlib

/-!
Debug-dump dispatcher of `src/server/debug/server/server.go`.

Shallow embedding of the redirect dispatcher (`handleRedirect`,
`handlePipelineRedirect`, `forEachWorker`, `handleWorkerRedirect`) and of the
Dump collectors, followed by theorems about them.

Conventions of the embedding.

* A Go `error` is its message text; `nil` is `none`.
* A variadic `prefix ...string` parameter is a `List String` (named `pfx`).
* The `*tar.Writer` is append-only, so a function that receives it is modelled
  by what it appends: it returns its error together with the list of events it
  caused, in order.  An event is either an archive entry that was written or a
  call the dispatcher made to one of its collaborators.
* Calls to the control plane, the cluster API and peers are answered by the
  fields of `Env`.
-/

namespace Pachyderm.Debug

/-- Message text of a Go error. -/
abbrev Err := String

/-- The `debug.Filter` message: a oneof that may be left unset. -/
inductive Filter where
  | unset
  | pachd
  | pipeline (name : String)
  | worker (pod : String) (redirected : Bool)
  deriving DecidableEq, Repr

/-- The fields of `pps.PipelineInfo` the debug server reads. -/
structure PipelineInfo where
  name : String
  version : Nat
  deriving DecidableEq, Repr

/-- The fields of `v1.Pod` the debug server reads. -/
structure Pod where
  name : String
  phase : String
  podIP : String
  deriving DecidableEq, Repr

/-- A `debug.DebugClient`, identified by the address it is connected to. -/
abbrev DebugClient := String

/-- One entry of the archive.  An error marker is kept apart from ordinary
files: it records the path of the node it stands for and the failure text. -/
inductive Entry where
  | file (path : String) (body : List String)
  | errorMarker (path : String) (text : String)
  deriving DecidableEq, Repr

/-- The `io.Reader` a redirect returns: the entries of the peer archive that
can be read, and the error (if any) the stream ends with. -/
structure Reader where
  entries : List Entry
  err : Option Err
  deriving DecidableEq, Repr

/-- What the dispatcher does, in order. -/
inductive Event where
  | collectPachd (pfx : List String)
  | collectPipeline (p : PipelineInfo) (pfx : List String)
  | collectWorker (pod : Pod) (pfx : List String)
  | collect (pfx : List String)
  | inspectPipeline (name : String)
  | listPipeline
  | getPod (name : String)
  | listPods (p : PipelineInfo)
  | newClient (ip : String)
  | redirect (c : DebugClient) (f : Filter)
  | write (e : Entry)
  deriving DecidableEq, Repr

/-- Result of a function that receives the tar writer: the returned error and
the events it caused. -/
abbrev Out := Option Err × List Event

/-- Result of a collector: the returned error and the entries it appended. -/
abbrev Collected := Option Err × List Entry

/-- Result of a callback that receives an `io.Writer`: the returned error and
the chunks it wrote. -/
abbrev Produced := Option Err × List String

/-- The field of `pfs.RepoInfo` the debug server reads. -/
structure RepoInfo where
  name : String
  deriving DecidableEq, Repr

/-- A `pfs.CommitInfo`, identified by its commit. -/
structure CommitInfo where
  id : String
  deriving DecidableEq, Repr

/-- A `pps.JobInfo`, identified by its job. -/
structure JobInfo where
  id : String
  deriving DecidableEq, Repr

/-- A `types.Duration` message. -/
structure DurationProto where
  seconds : Int
  nanos : Int
  deriving DecidableEq, Repr

/-- The `debug.Profile` message; `duration` is `none` for a nil pointer. -/
structure Profile where
  name : String
  duration : Option DurationProto
  deriving DecidableEq, Repr

/-- The `debug.ProfileRequest` message. -/
structure ProfileRequest where
  profile : Profile
  filter : Option Filter
  deriving DecidableEq, Repr

/-- The `debug.BinaryRequest` message. -/
structure BinaryRequest where
  filter : Option Filter
  deriving DecidableEq, Repr

/-- The `debug.DumpRequest` message; `limit` is an int64. -/
structure DumpRequest where
  filter : Option Filter
  limit : Int
  deriving DecidableEq, Repr

/-- A stream that was opened: what can be copied out of it, the error the
copy ends with, and the error of closing it. -/
structure ByteStream where
  content : List String
  copyErr : Option Err
  closeErr : Option Err
  deriving DecidableEq, Repr

/-- The error a listing callback returns: the sentinel `errutil.ErrBreak`, or
any other error. -/
inductive CbErr where
  | ErrBreak
  | other (err : Err)
  deriving DecidableEq, Repr

/-- What the Go runtime profiler is asked to do. -/
inductive PprofEffect where
  | startCPUProfile
  | sleep (nanoseconds : Int)
  | stopCPUProfile
  | writeTo (name : String) (debug : Nat)
  deriving DecidableEq, Repr

abbrev collectPipelineFunc := PipelineInfo → List String → Collected
abbrev collectWorkerFunc := Pod → List String → Collected
abbrev redirectFunc := DebugClient → Filter → Except Err Reader
abbrev collectFunc := List String → Collected

/-- The collaborators of one debug server: its own fields (`name`,
`sidecarClient`), the control plane, the cluster API, peers, and the output
transport. -/
structure Env where
  /-- Field `s.name`. -/
  name : String
  /-- Field `s.sidecarClient`; `none` is the nil pointer. -/
  sidecarClient : Option DebugClient
  /-- Constant `client.PPSWorkerUserContainerName`. -/
  PPSWorkerUserContainerName : String
  /-- Constant `client.PPSWorkerSidecarContainerName`. -/
  PPSWorkerSidecarContainerName : String
  /-- Call `pachClient.InspectPipeline(name)`. -/
  inspectPipeline : String → Except Err PipelineInfo
  /-- Call `pachClient.ListPipeline()`. -/
  listPipeline : Except Err (List PipelineInfo)
  /-- Call `Pods(namespace).Get(name)`. -/
  getPod : String → Except Err Pod
  /-- Call `Pods(namespace).List` with the selector built from the pipeline
  name and version. -/
  listPods : PipelineInfo → Except Err (List Pod)
  /-- Call `workerserver.NewClient(ip)`. -/
  newClient : String → Except Err DebugClient
  /-- Whether appending this entry to the output fails, and with what. -/
  writeFails : Entry → Option Err
  /-- Call `pachClient.ListRepo()`. -/
  listRepo : Except Err (List RepoInfo)
  /-- The stream of `pachClient.ListCommitF(repo, "", "", number, false, f)`:
  the commits the control plane sends for this bound and the error the stream
  ends with. -/
  listCommit : String → Nat → List CommitInfo × Option Err
  /-- The stream of `pachClient.ListJobF(pipeline, nil, nil, 0, false, f)`. -/
  listJob : String → List JobInfo × Option Err
  /-- Call `pachClient.Version()`. -/
  version : Except Err String
  /-- Call `Pods(namespace).GetLogs(pod, container).Stream()`. -/
  getLogs : String → String → Except Err ByteStream
  /-- Call `os.Open(os.Args[0])`. -/
  openBinary : Except Err ByteStream
  /-- Calls `s.marshaller.Marshal(w, x)`: the text written, or the error. -/
  marshalPipeline : PipelineInfo → Except Err String
  marshalCommit : CommitInfo → Except Err String
  marshalJob : JobInfo → Except Err String
  /-- Call `pprof.StartCPUProfile(w)`. -/
  startCPUProfile : Option Err
  /-- What the sampling profiler has written when it is stopped after the
  given number of nanoseconds. -/
  cpuProfileData : Int → List String
  /-- Call `types.DurationFromProto(d)`, in nanoseconds. -/
  durationFromProto : DurationProto → Except Err Int
  /-- Call `pprof.Lookup(name)`; a profile found answers `WriteTo(w, debug)`
  with what it wrote and its error. -/
  pprofLookup : String → Option (Nat → Produced)
  /-- Calls `c.Profile`, `c.Binary` and `c.Dump` on a peer. -/
  peerProfile : DebugClient → ProfileRequest → Except Err Reader
  peerBinary : DebugClient → BinaryRequest → Except Err Reader
  peerDump : DebugClient → DumpRequest → Except Err Reader

def pachdPrefix : String := "pachd"
def pipelinePrefix : String := "pipelines"
def podPrefix : String := "pods"

/-- Value of `v1.PodRunning`. -/
def PodRunning : String := "Running"

/-- Modelled from the spec: `join` is not in the sources at hand.  The spec
gives paths as sequences of segments written `pipelines/<name>/pods/<pod>`,
so the segments are joined with a slash. -/
def join (names : List String) : String := "/".intercalate names

/-- Appending one entry to the archive: it is written, or the output fails. -/
def writeTarEntry (env : Env) (e : Entry) : Collected :=
  match env.writeFails e with
  | none => (none, [e])
  | some err => (some err, [])

/-- Modelled from the spec: `writeErrorFile` is not in the sources at hand.
The spec has a failed step produce exactly one error-marker entry recording
the failure text at the path of the node, and only a failure of the output
itself is reported.  Without a prefix the marker stands at the root. -/
def writeErrorFile (env : Env) (err : Err) (pfx : List String) : Out :=
  let path := match pfx with
    | [] => ""
    | p :: _ => p
  let r := writeTarEntry env (.errorMarker path err)
  (r.1, r.2.map Event.write)

/-- Path of an entry. -/
def Entry.path : Entry → String
  | .file p _ => p
  | .errorMarker p _ => p

/-- Put an entry of a peer archive under a path. -/
def Entry.under (p : String) : Entry → Entry
  | .file path body => .file (join [p, path]) body
  | .errorMarker path text => .errorMarker (join [p, path]) text

/-- Re-emit entries one by one until the output fails. -/
def copyEntries (env : Env) : List Entry → Collected
  | [] => (none, [])
  | e :: es =>
    match env.writeFails e with
    | some err => (some err, [])
    | none =>
      let r := copyEntries env es
      (r.1, e :: r.2)

/-- Modelled from the spec: `collectDebugStream` is not in the sources at
hand.  The spec describes the merge as a streaming pass-through that parses
the entries of the inner archive, rewrites each path with the current prefix,
and re-emits them; it stops at the first failure of the output, and otherwise
ends with the error of the stream, if any. -/
def collectDebugStream (env : Env) (r : Reader) (pfx : List String) : Out :=
  let es := match pfx with
    | [] => r.entries
    | p :: _ => r.entries.map (Entry.under p)
  let c := copyEntries env es
  match c.1 with
  | some err => (some err, c.2.map Event.write)
  | none => (r.err, c.2.map Event.write)

/-- Modelled from the spec: `withDebugWriter` is not in the sources at hand.
The spec has it wrap the output stream with the archive encoder for the
lifetime of one call; the archive starts empty and the call reports what the
callback reports. -/
def withDebugWriter (cb : Out) : Out := cb

/-- Sequencing of two steps that share the writer: the second step runs only
when the first returned nil. -/
def andThen {α : Type} (a k : Option Err × List α) : Option Err × List α :=
  match a.1 with
  | none => (k.1, a.2 ++ k.2)
  | some e => (some e, a.2)

/-- A call to a collector: the call is recorded, then the entries it wrote. -/
def callCollector (ev : Event) (r : Collected) : Out :=
  (r.1, ev :: r.2.map Event.write)

/-- The deferred function of `handlePipelineRedirect` and
`handleWorkerRedirect`: a non-nil result is replaced by the result of writing
it as an error file under the prefix. -/
def deferWriteErrorFile (env : Env) (body : Out) (pfx : String) : Out :=
  match body.1 with
  | none => body
  | some retErr =>
    let w := writeErrorFile env retErr [pfx]
    (w.1, body.2 ++ w.2)

/-- Text of the error for a pod that is not running. -/
def phaseError (phase : String) : Err :=
  "pod in phase " ++ phase ++ ", must be in phase " ++ PodRunning ++
    " to collect debug information"

/-- Text of the error for a pipeline without pods. -/
def noWorkerPodsError (pipeline : String) : Err :=
  "no worker pods found for pipeline " ++ pipeline

/-- The path `workerPrefix` computed at the head of `handleWorkerRedirect`. -/
def workerPrefixOf (pod : Pod) (pfx : List String) : String :=
  let workerPrefix := join [podPrefix, pod.name]
  match pfx with
  | [] => workerPrefix
  | p :: _ => join [p, workerPrefix]

/-- The body of `debugServer.handleWorkerRedirect`, before its deferred
function runs. -/
def handleWorkerRedirectBody (env : Env) (pod : Pod)
    (collectWorker : Option collectWorkerFunc) (cb : redirectFunc)
    (workerPrefix : String) : Out :=
  let collected : Out := match collectWorker with
    | none => (none, [])
    | some cw => callCollector (.collectWorker pod [workerPrefix]) (cw pod [workerPrefix])
  let rest : Out :=
    if pod.phase ≠ PodRunning then
      (some (phaseError pod.phase), [])
    else
      match env.newClient pod.podIP with
      | .error err => (some err, [.newClient pod.podIP])
      | .ok c =>
        let f := Filter.worker pod.name true
        match cb c f with
        | .error err => (some err, [.newClient pod.podIP, .redirect c f])
        | .ok r =>
          let m := collectDebugStream env r [workerPrefix]
          (m.1, [.newClient pod.podIP, .redirect c f] ++ m.2)
  andThen collected rest

/-- Transliteration of `debugServer.handleWorkerRedirect`. -/
def handleWorkerRedirect (env : Env) (pod : Pod)
    (collectWorker : Option collectWorkerFunc) (cb : redirectFunc)
    (pfx : List String) : Out :=
  let workerPrefix := workerPrefixOf pod pfx
  deferWriteErrorFile env (handleWorkerRedirectBody env pod collectWorker cb workerPrefix)
    workerPrefix

/-- The loop of `forEachWorker`: the callback runs on the pods in order and
the first error ends the loop. -/
def forEachPod (cb : Pod → Out) : List Pod → Out
  | [] => (none, [])
  | pod :: pods => andThen (cb pod) (forEachPod cb pods)

/-- Transliteration of `debugServer.getWorkerPods`. -/
def getWorkerPods (env : Env) (pipelineInfo : PipelineInfo) : Except Err (List Pod) :=
  env.listPods pipelineInfo

/-- Transliteration of `debugServer.forEachWorker`. -/
def forEachWorker (env : Env) (pipelineInfo : PipelineInfo) (cb : Pod → Out) : Out :=
  match getWorkerPods env pipelineInfo with
  | .error err => (some err, [.listPods pipelineInfo])
  | .ok pods =>
    if pods.length = 0 then
      (some (noWorkerPodsError pipelineInfo.name), [.listPods pipelineInfo])
    else
      let r := forEachPod cb pods
      (r.1, .listPods pipelineInfo :: r.2)

/-- The body of `debugServer.handlePipelineRedirect`, before its deferred
function runs. -/
def handlePipelineRedirectBody (env : Env) (pipelineInfo : PipelineInfo)
    (collectPipeline : Option collectPipelineFunc)
    (collectWorker : Option collectWorkerFunc) (redirect : redirectFunc)
    (pfx : String) : Out :=
  let collected : Out := match collectPipeline with
    | none => (none, [])
    | some cp => callCollector (.collectPipeline pipelineInfo [pfx]) (cp pipelineInfo [pfx])
  let rest : Out := forEachWorker env pipelineInfo
    (fun pod => handleWorkerRedirect env pod collectWorker redirect [pfx])
  andThen collected rest

/-- Transliteration of `debugServer.handlePipelineRedirect`. -/
def handlePipelineRedirect (env : Env) (pipelineInfo : PipelineInfo)
    (collectPipeline : Option collectPipelineFunc)
    (collectWorker : Option collectWorkerFunc) (redirect : redirectFunc) : Out :=
  let pfx := join [pipelinePrefix, pipelineInfo.name]
  deferWriteErrorFile env
    (handlePipelineRedirectBody env pipelineInfo collectPipeline collectWorker redirect pfx) pfx

/-- The loop over the listed pipelines at the end of `handleRedirect`. -/
def forEachPipeline (cb : PipelineInfo → Out) : List PipelineInfo → Out
  | [] => (none, [])
  | p :: ps => andThen (cb p) (forEachPipeline cb ps)

/-- Transliteration of `debugServer.handleRedirect`.  The request filter is
`none` for a nil pointer. -/
def handleRedirect (env : Env) (filter : Option Filter)
    (collectPachd : collectFunc)
    (collectPipeline : Option collectPipelineFunc)
    (collectWorker : Option collectWorkerFunc)
    (redirect : redirectFunc) (collect : collectFunc) : Out :=
  withDebugWriter <|
    let pachdContainerPrefix := join [pachdPrefix, env.name, "pachd"]
    let everything : Out :=
      andThen (callCollector (.collectPachd [pachdContainerPrefix])
          (collectPachd [pachdContainerPrefix])) <|
        match env.listPipeline with
        | .error err => (some err, [.listPipeline])
        | .ok pipelineInfos =>
          let r := forEachPipeline (fun pipelineInfo =>
            handlePipelineRedirect env pipelineInfo collectPipeline collectWorker redirect)
            pipelineInfos
          (r.1, .listPipeline :: r.2)
    match filter with
    | some .pachd =>
      callCollector (.collectPachd [pachdContainerPrefix]) (collectPachd [pachdContainerPrefix])
    | some (.pipeline name) =>
      match env.inspectPipeline name with
      | .error err => (some err, [.inspectPipeline name])
      | .ok pipelineInfo =>
        let r := handlePipelineRedirect env pipelineInfo collectPipeline collectWorker redirect
        (r.1, .inspectPipeline name :: r.2)
    | some (.worker podName redirected) =>
      if redirected then
        match env.sidecarClient with
        | none =>
          callCollector (.collect [env.PPSWorkerSidecarContainerName])
            (collect [env.PPSWorkerSidecarContainerName])
        | some sidecar =>
          andThen (callCollector (.collect [env.PPSWorkerUserContainerName])
              (collect [env.PPSWorkerUserContainerName])) <|
            match redirect sidecar (.worker podName redirected) with
            | .error err => (some err, [.redirect sidecar (.worker podName redirected)])
            | .ok r =>
              let m := collectDebugStream env r []
              (m.1, .redirect sidecar (.worker podName redirected) :: m.2)
      else
        match env.getPod podName with
        | .error err => (some err, [.getPod podName])
        | .ok pod =>
          let r := handleWorkerRedirect env pod collectWorker redirect []
          (r.1, .getPod podName :: r.2)
    | some .unset => everything
    | none => everything

/-- Modelled from the spec: `collectDebugFile` is not in the sources at hand.
The spec gives one primitive, write a named file under a path prefix given a
content-producing callback, whose content is captured and framed at once; a
callback that fails makes the step fail, and so does a failure of the output. -/
def collectDebugFile (env : Env) (name : String) (cb : Produced) (pfx : List String) :
    Collected :=
  let name := match pfx with
    | [] => name
    | p :: _ => join [p, name]
  match cb.1 with
  | some err => (some err, [])
  | none => writeTarEntry env (.file name cb.2)

/-- Value of `time.Minute`, in nanoseconds. -/
def defaultDuration : Int := 60 * 1000000000

/-- Value of `math.MaxInt64`. -/
def maxInt64 : Int := 2 ^ 63 - 1

/-- The conversion `uint64(limit)` of an int64. -/
def toUInt64 (i : Int) : Nat := (i % 2 ^ 64).toNat

/-- The Go test `strings.Contains(s, sub)`. -/
def stringsContains (s sub : String) : Bool := decide (sub.toList <:+: s.toList)

/-- The result of running `writeProfile`. -/
structure ProfileRun where
  err : Option Err
  written : List String
  effects : List PprofEffect
  deriving DecidableEq, Repr

/-- Transliteration of `writeProfile`.  The format verb `%q` is rendered by
putting the name between double quotes. -/
def writeProfile (env : Env) (profile : Profile) : ProfileRun :=
  if profile.name = "cpu" then
    match env.startCPUProfile with
    | some err => ⟨some err, [], []⟩
    | none =>
      match profile.duration with
      | none =>
        ⟨none, env.cpuProfileData defaultDuration,
          [.startCPUProfile, .sleep defaultDuration, .stopCPUProfile]⟩
      | some d =>
        match env.durationFromProto d with
        | .error err => ⟨some err, [], [.startCPUProfile]⟩
        | .ok duration =>
          ⟨none, env.cpuProfileData duration,
            [.startCPUProfile, .sleep duration, .stopCPUProfile]⟩
  else
    match env.pprofLookup profile.name with
    | none => ⟨some ("unable to find profile \"" ++ profile.name ++ "\""), [], []⟩
    | some p =>
      let r := p 2
      ⟨r.1, r.2, [.writeTo profile.name 2]⟩

/-- Transliteration of `collectProfile`. -/
def collectProfile (env : Env) (profile : Profile) (pfx : List String) : Collected :=
  let r := writeProfile env profile
  collectDebugFile env profile.name (r.err, r.written) pfx

/-- Transliteration of `collectProfileFunc`. -/
def collectProfileFunc (env : Env) (profile : Profile) : collectFunc :=
  fun pfx => collectProfile env profile pfx

/-- Transliteration of `redirectProfileFunc`. -/
def redirectProfileFunc (env : Env) (profile : Profile) : redirectFunc :=
  fun c filter => env.peerProfile c { profile := profile, filter := some filter }

/-- Transliteration of `debugServer.Profile`. -/
def debugServer.Profile (env : Env) (request : ProfileRequest) : Out :=
  handleRedirect env request.filter
    (collectProfileFunc env request.profile) none none
    (redirectProfileFunc env request.profile)
    (collectProfileFunc env request.profile)

/-- The callback of `collectBinary` and of `collectLogs` once the stream is
open: copy it out, then close it; the error of the copy comes first. -/
def copyStream (s : Except Err ByteStream) : Produced :=
  match s with
  | .error err => (some err, [])
  | .ok f =>
    match f.copyErr with
    | some err => (some err, f.content)
    | none => (f.closeErr, f.content)

/-- Transliteration of `collectBinary`. -/
def collectBinary (env : Env) : collectFunc :=
  fun pfx => collectDebugFile env "binary" (copyStream env.openBinary) pfx

/-- Transliteration of `redirectBinaryFunc`. -/
def redirectBinaryFunc (env : Env) : redirectFunc :=
  fun c filter => env.peerBinary c { filter := some filter }

/-- Transliteration of `debugServer.Binary`. -/
def debugServer.Binary (env : Env) (request : BinaryRequest) : Out :=
  handleRedirect env request.filter (collectBinary env) none none
    (redirectBinaryFunc env) (collectBinary env)

/-- Modelled from the spec: `ListCommitF` and `ListJobF` belong to the client
library, which is not in the sources at hand.  The spec asks of them a
streamed listing with early-stop support: the items are offered to the
callback in order; the sentinel `ErrBreak` ends the listing without an error,
any other error of the callback ends it with that error, and when the items
are exhausted the listing reports the error of the stream.  The result also
counts the items that were offered. -/
def listF {α σ : Type} (f : σ → α → Option CbErr × σ) (endErr : Option Err) :
    List α → σ → Option Err × σ × Nat
  | [], s => (endErr, s, 0)
  | x :: xs, s =>
    match f s x with
    | (some .ErrBreak, s1) => (none, s1, 1)
    | (some (.other err), s1) => (some err, s1, 1)
    | (none, s1) =>
      let r := listF f endErr xs s1
      (r.1, r.2.1, r.2.2 + 1)

/-- A call `s.marshaller.Marshal(w, x)` inside a listing callback: the text is
appended to what was written, or the error is returned. -/
def marshalTo {α : Type} (marshal : α → Except Err String) (w : List String) (x : α) :
    Option CbErr × List String :=
  match marshal x with
  | .error err => (some (.other err), w)
  | .ok text => (none, w ++ [text])

/-- The callback that writes the commits entry in `collectInputRepos` and in
`collectPipelineDumpFunc`. -/
def commitsFile (env : Env) (repo : String) (limit : Int) : Produced :=
  let l := env.listCommit repo (toUInt64 limit)
  let r := listF (marshalTo env.marshalCommit) l.2 l.1 []
  (r.1, r.2.1)

/-- The loop of `collectInputRepos` over the listed repositories. -/
def collectInputReposLoop (env : Env) (limit : Int) : List RepoInfo → Collected
  | [] => (none, [])
  | repoInfo :: repoInfos =>
    match env.inspectPipeline repoInfo.name with
    | .error err =>
      if stringsContains err "not found" then
        let repoPrefix := join ["input-repos", repoInfo.name]
        collectDebugFile env "commits" (commitsFile env repoInfo.name limit) [repoPrefix]
      else
        (some err, [])
    | .ok _ => collectInputReposLoop env limit repoInfos

/-- Transliteration of `debugServer.collectInputRepos`. -/
def collectInputRepos (env : Env) (limit : Int) : Collected :=
  match env.listRepo with
  | .error err => (some err, [])
  | .ok repoInfos => collectInputReposLoop env limit repoInfos

/-- Transliteration of `debugServer.collectPachdVersion`. -/
def collectPachdVersion (env : Env) (pfx : List String) : Collected :=
  collectDebugFile env "version"
    (match env.version with
      | .error err => (some err, [])
      | .ok version => (none, [version ++ "\n"]))
    pfx

/-- Transliteration of `debugServer.collectLogs`. -/
def collectLogs (env : Env) (pod container : String) (pfx : List String) : Collected :=
  collectDebugFile env "logs" (copyStream (env.getLogs pod container)) pfx

/-- Transliteration of `collectDump`. -/
def collectDump (env : Env) : collectFunc :=
  fun pfx =>
    andThen (collectProfile env { name := "goroutine", duration := none } pfx)
      (collectProfile env { name := "heap", duration := none } pfx)

/-- Transliteration of `debugServer.collectPachdDumpFunc`. -/
def collectPachdDumpFunc (env : Env) (limit : Int) : collectFunc :=
  fun pfx =>
    andThen (collectInputRepos env limit) <|
    andThen (collectPachdVersion env pfx) <|
    andThen (collectLogs env env.name "pachd" pfx) <|
    collectDump env pfx

/-- The callback given to `ListJobF` in `collectPipelineDumpFunc`; its state
is the counter `count` and what was written so far. -/
def jobsCallback (env : Env) (limit : Int) (st : Int × List String) (ji : JobInfo) :
    Option CbErr × (Int × List String) :=
  if st.1 ≥ limit then
    (some .ErrBreak, st)
  else
    let r := marshalTo env.marshalJob st.2 ji
    (r.1, (st.1 + 1, r.2))

/-- The callback that writes the jobs entry in `collectPipelineDumpFunc`,
with the number of jobs that were offered to `jobsCallback`. -/
def jobsFile (env : Env) (pipeline : String) (limit : Int) : Produced × Nat :=
  let l := env.listJob pipeline
  let r := listF (jobsCallback env limit) l.2 l.1 (0, [])
  ((r.1, r.2.1.2), r.2.2)

/-- The callback that writes the spec entry in `collectPipelineDumpFunc`. -/
def specFile (env : Env) (pipeline : String) : Produced :=
  match env.inspectPipeline pipeline with
  | .error err => (some err, [])
  | .ok fullPipelineInfo =>
    match env.marshalPipeline fullPipelineInfo with
    | .error err => (some err, [])
    | .ok text => (none, [text])

/-- Transliteration of `debugServer.collectPipelineDumpFunc`. -/
def collectPipelineDumpFunc (env : Env) (limit : Int) : collectPipelineFunc :=
  fun pipelineInfo pfx =>
    andThen (collectDebugFile env "spec" (specFile env pipelineInfo.name) pfx) <|
    andThen (collectDebugFile env "commits" (commitsFile env pipelineInfo.name limit) pfx) <|
    collectDebugFile env "jobs" (jobsFile env pipelineInfo.name limit).1 pfx

/-- Transliteration of `debugServer.collectWorkerDump`. -/
def collectWorkerDump (env : Env) : collectWorkerFunc :=
  fun pod pfx =>
    let userPrefix := match pfx with
      | [] => env.PPSWorkerUserContainerName
      | p :: _ => join [p, env.PPSWorkerUserContainerName]
    let sidecarPrefix := match pfx with
      | [] => env.PPSWorkerSidecarContainerName
      | p :: _ => join [p, env.PPSWorkerSidecarContainerName]
    andThen (collectLogs env pod.name env.PPSWorkerUserContainerName [userPrefix])
      (collectLogs env pod.name env.PPSWorkerSidecarContainerName [sidecarPrefix])

/-- Transliteration of `redirectDumpFunc`: the request sent to the peer has
only its filter set, so its limit is the zero value. -/
def redirectDumpFunc (env : Env) : redirectFunc :=
  fun c filter => env.peerDump c { filter := some filter, limit := 0 }

/-- Transliteration of `debugServer.Dump`. -/
def debugServer.Dump (env : Env) (request : DumpRequest) : Out :=
  let limit := if request.limit = 0 then maxInt64 else request.limit
  handleRedirect env request.filter
    (collectPachdDumpFunc env limit)
    (some (collectPipelineDumpFunc env limit))
    (some (collectWorkerDump env))
    (redirectDumpFunc env)
    (collectDump env)

/-- The archive a call produced: the entries written, in order. -/
def archive (t : List Event) : List Entry :=
  t.filterMap fun
    | .write e => some e
    | _ => none

/-- The redirect function `rd` with one peer made unreachable: the call to
client `c0` for pod `pod` fails with `e`, every other call is answered as
before. -/
def redirectFailingAt (rd : redirectFunc) (c0 : DebugClient) (pod : String) (e : Err) :
    redirectFunc :=
  fun c f => if c = c0 ∧ f = .worker pod true then .error e else rd c f

/-- The output has failed for good: every write of an error marker fails with
the error `w`. -/
def OutputBroken (env : Env) (w : Err) : Prop :=
  ∀ path text, env.writeFails (.errorMarker path text) = some w

/-- An event that is not a redirect, or a redirect whose filter is a Worker
filter with `redirected` set. -/
def redirectedWorker : Event → Bool
  | .redirect _ (.worker _ true) => true
  | .redirect _ _ => false
  | _ => true

/-- The events `handleWorkerRedirect` may cause for a pod whose path is `wp`:
the call of the worker collector with `wp` and what that call wrote, the
connection to the pod, the redirect, an entry of the returned stream put
under `wp`, and an error marker at `wp`. -/
def IsWorkerNodeEvent (cw : Option collectWorkerFunc) (rd : redirectFunc) (pod : Pod)
    (wp : String) (ev : Event) : Prop :=
  (∃ f, cw = some f ∧ (ev = .collectWorker pod [wp] ∨ ∃ e ∈ (f pod [wp]).2, ev = .write e)) ∨
    ev = .newClient pod.podIP ∨
    (∃ c, ev = .redirect c (.worker pod.name true)) ∨
    (∃ c r, rd c (.worker pod.name true) = .ok r ∧
      ∃ e ∈ r.entries, ev = .write (Entry.under wp e)) ∨
    ∃ t, ev = .write (.errorMarker wp t)

/-- Whether the sampling profiler of the process is running after these
effects, when it was not running before them. -/
def profilerRunning (effects : List PprofEffect) : Bool :=
  effects.foldl (fun running e =>
    match e with
    | .startCPUProfile => true
    | .stopCPUProfile => false
    | _ => running) false

/-- Whether a path lies in the subtree of the directory `dir`. -/
def pathUnder (dir path : String) : Bool :=
  decide ((dir ++ "/").toList <+: path.toList)

/-- Every write of an error marker succeeds. -/
def MarkersWritable (env : Env) : Prop :=
  ∀ path text, env.writeFails (.errorMarker path text) = none

/-! ## A sample deployment

One coordinator `pachd-0` with two pipelines: `edges`, backed by one running
and one pending pod, and `montage`, which has no pods.  Every write to the
output succeeds. -/

def demoPodRunning : Pod := ⟨"edges-v1-a", "Running", "10.0.0.1"⟩
def demoPodPending : Pod := ⟨"edges-v1-b", "Pending", "10.0.0.2"⟩

def demoEnv : Env where
  name := "pachd-0"
  sidecarClient := none
  PPSWorkerUserContainerName := "user"
  PPSWorkerSidecarContainerName := "storage"
  inspectPipeline := fun n =>
    if n = "edges" then .ok ⟨"edges", 1⟩
    else if n = "montage" then .ok ⟨"montage", 2⟩
    else .error ("pipeline " ++ n ++ " not found")
  listPipeline := .ok [⟨"edges", 1⟩, ⟨"montage", 2⟩]
  getPod := fun n =>
    if n = "edges-v1-a" then .ok demoPodRunning
    else if n = "edges-v1-b" then .ok demoPodPending
    else .error ("pods " ++ n ++ " not found")
  listPods := fun p => if p.name = "edges" then .ok [demoPodRunning, demoPodPending] else .ok []
  newClient := fun ip => .ok ip
  writeFails := fun _ => none
  listRepo := .ok [⟨"images"⟩, ⟨"edges"⟩, ⟨"raw"⟩]
  listCommit := fun r n => (([⟨r ++ "-c1"⟩, ⟨r ++ "-c2"⟩, ⟨r ++ "-c3"⟩] : List CommitInfo).take n, none)
  listJob := fun p => ([⟨p ++ "-j1"⟩, ⟨p ++ "-j2"⟩, ⟨p ++ "-j3"⟩], none)
  version := .ok "1.11.0"
  getLogs := fun pod container => .ok ⟨[pod ++ " " ++ container], none, none⟩
  openBinary := .ok ⟨["ELF"], none, none⟩
  marshalPipeline := fun p => .ok p.name
  marshalCommit := fun c => .ok c.id
  marshalJob := fun j => .ok j.id
  startCPUProfile := none
  cpuProfileData := fun _ => ["samples"]
  durationFromProto := fun d =>
    if (d.seconds < 0 ∧ 0 < d.nanos) ∨ (0 < d.seconds ∧ d.nanos < 0) then
      .error "duration: seconds and nanos have different signs"
    else .ok (d.seconds * 1000000000 + d.nanos)
  pprofLookup := fun n => if n = "goroutine" ∨ n = "heap" then some (fun _ => (none, [n])) else none
  peerProfile := fun c _ => .ok ⟨[.file "cpu" [c]], none⟩
  peerBinary := fun c _ => .ok ⟨[.file "binary" [c]], none⟩
  peerDump := fun c _ => .ok ⟨[.file "goroutine" [c], .file "heap" [c]], none⟩

/-- The sample deployment with a control plane that cannot list repositories. -/
def demoEnvNoRepos : Env :=
  { demoEnv with listRepo := .error "rpc error: code = Unavailable" }

def demoPodSecond : Pod := ⟨"edges-v1-c", "Running", "10.0.0.3"⟩

/-- The sample deployment with both pods of `edges` running. -/
def demoEnvRunning : Env :=
  { demoEnv with
    listPods := fun p => if p.name = "edges" then .ok [demoPodRunning, demoPodSecond] else .ok [] }

/-- The sample deployment with an output that takes files but no error
marker. -/
def demoEnvBroken : Env :=
  { demoEnv with
    writeFails := fun e =>
      match e with
      | .errorMarker _ _ => some "write: broken pipe"
      | .file _ _ => none }

/-- The sample deployment with peers that answer a Dump only when its limit
is 5. -/
def demoEnvLimitProbe : Env :=
  { demoEnv with
    peerDump := fun _ request =>
      if request.limit = 5 then .ok ⟨[], none⟩ else .error "peer was sent another limit" }

end Pachyderm.Debug

/-!
Bucket listing of `src/server/pfs/s3/bucket.go`.

The handler `bucketHandler.get` answers a request with an error response or
with a `ListBucketResult`.  The calls to the storage client, the conversions
of the libraries and the constants of the package that are declared elsewhere
are fields of `Client`.
-/

namespace Pachyderm.S3

/-- Message text of a Go error. -/
abbrev Err := String

/-- The enum `pfs.FileType`. -/
inductive FileType where
  | RESERVED
  | FILE
  | DIR
  deriving DecidableEq, Repr

/-- The fields of `pfs.FileInfo` the handler reads; `path` is
`fileInfo.File.Path` and `committed` the timestamp message. -/
structure FileInfo where
  path : String
  fileType : FileType
  sizeBytes : Nat
  committed : Int
  deriving DecidableEq, Repr

/-- The type `User` of the owner of an entry. -/
structure User where
  ID : String
  DisplayName : String
  deriving DecidableEq, Repr

/-- The struct `Contents`. -/
structure Contents where
  Key : String
  LastModified : Int
  ETag : String
  Size : Nat
  StorageClass : String
  Owner : User
  deriving DecidableEq, Repr

/-- The struct `CommonPrefixes`. -/
structure CommonPrefixes where
  Prefix : String
  Owner : User
  deriving DecidableEq, Repr

/-- The struct `ListBucketResult`. -/
structure ListBucketResult where
  Contents : List Contents
  CommonPrefixes : List CommonPrefixes
  Delimiter : String
  IsTruncated : Bool
  Marker : String
  MaxKeys : Int
  Name : String
  NextMarker : String
  Prefix : String
  deriving DecidableEq, Repr

/-- The metadata `getMeta` returns for an object. -/
structure Meta where
  MD5 : String
  deriving DecidableEq, Repr

/-- The field of `pfs.BranchInfo` the handler reads; `none` is a nil head. -/
structure BranchInfo where
  head : Option String
  deriving DecidableEq, Repr

/-- The form values and bucket arguments of a GET request. -/
structure Request where
  repo : String
  branch : String
  maxKeys : String
  delimiter : String
  pfx : String
  marker : String
  deriving DecidableEq, Repr

/-- What the handler writes. -/
inductive Response where
  | notFoundError (err : Err)
  | invalidArgument
  | invalidDelimiterError
  | internalError (err : Err)
  | ok (result : ListBucketResult)
  deriving DecidableEq, Repr

/-- The collaborators of the bucket handler. -/
structure Client where
  /-- Call `pc.InspectBranch(repo, branch)`. -/
  inspectBranch : String → String → Except Err BranchInfo
  /-- Call `pc.GlobFile(repo, branch, pattern)`. -/
  globFile : String → String → String → Except Err (List FileInfo)
  /-- Call `getMeta(pc, repo, branch, path)`; `none` is a nil meta. -/
  getMeta : String → String → String → Except Err (Option Meta)
  /-- Call `types.TimestampFromProto(t)`. -/
  timestampFromProto : Int → Except Err Int
  /-- Call `strconv.Atoi(s)`; `none` when it returns an error. -/
  atoi : String → Option Int
  /-- Call `glob.QuoteMeta(s)`. -/
  quoteMeta : String → String
  /-- Constant `storageClass`. -/
  storageClass : String
  /-- Variable `defaultUser`. -/
  defaultUser : User

def defaultMaxKeys : Int := 1000

/-- The Go comparison `a <= b` of two strings, byte by byte; the order of the
code points of two strings is the order of their UTF-8 bytes. -/
def leChars : List Char → List Char → Bool
  | [], _ => true
  | _ :: _, [] => false
  | a :: as, b :: bs =>
    if a.toNat < b.toNat then true
    else if b.toNat < a.toNat then false
    else leChars as bs

/-- The Go comparison `a <= b` of two strings. -/
def stringLE (a b : String) : Bool := leChars a.toList b.toList

/-- The Go test `strings.HasPrefix(s, p)`. -/
def hasPrefix (s p : String) : Bool := decide (p.toList <+: s.toList)

/-- The Go test `strings.HasSuffix(s, p)`. -/
def hasSuffix (s p : String) : Bool := decide (p.toList <:+ s.toList)

/-- The slice `s[1:]` of a path, which begins with a slash. -/
def stripLeadingSlash (s : String) : String := String.mk (s.toList.drop 1)

/-- Transliteration of `ListBucketResult.isFull`. -/
def ListBucketResult.isFull (r : ListBucketResult) : Bool :=
  decide (((r.Contents.length + r.CommonPrefixes.length : Nat) : Int) ≥ r.MaxKeys)

/-- Transliteration of `newContents`. -/
def newContents (pc : Client) (fileInfo : FileInfo) (etag : String) : Except Err Contents :=
  match pc.timestampFromProto fileInfo.committed with
  | .error err => .error err
  | .ok t =>
    .ok { Key := fileInfo.path, LastModified := t, ETag := etag, Size := fileInfo.sizeBytes,
          StorageClass := pc.storageClass, Owner := pc.defaultUser }

/-- Transliteration of `newCommonPrefixes`. -/
def newCommonPrefixes (pc : Client) (dir : String) : CommonPrefixes :=
  { Prefix := dir ++ "/", Owner := pc.defaultUser }

/-- The first tests of the loop body of `bucketHandler.get`, on the type of
the file info: true when the loop continues with the next file info. -/
def skippedByType (recursive : Bool) (fileInfo : FileInfo) : Bool :=
  match fileInfo.fileType with
  | .DIR => fileInfo.path = "/" || recursive
  | .FILE => hasSuffix fileInfo.path ".s3g.json"
  | .RESERVED => true

/-- The loop of `bucketHandler.get` over the file infos.  An error of
`getMeta` or of `newContents` ends the handler with an internal error. -/
def listLoop (pc : Client) (branch : String) (recursive : Bool) :
    ListBucketResult → List FileInfo → Except Err ListBucketResult
  | result, [] => .ok result
  | result, fileInfo :: fileInfos =>
    if skippedByType recursive fileInfo then
      listLoop pc branch recursive result fileInfos
    else
      let path := stripLeadingSlash fileInfo.path
      if !hasPrefix path result.Prefix then
        listLoop pc branch recursive result fileInfos
      else if stringLE path result.Marker then
        listLoop pc branch recursive result fileInfos
      else if result.isFull then
        if result.MaxKeys > 0 then .ok { result with IsTruncated := true } else .ok result
      else if fileInfo.fileType = .FILE then
        match pc.getMeta result.Name branch ("/" ++ path) with
        | .error err => .error err
        | .ok meta =>
          let etag := match meta with
            | some m => m.MD5
            | none => ""
          match newContents pc { fileInfo with path := path } etag with
          | .error err => .error err
          | .ok contents =>
            listLoop pc branch recursive
              { result with Contents := result.Contents ++ [contents] } fileInfos
      else
        listLoop pc branch recursive
          { result with CommonPrefixes := result.CommonPrefixes ++ [newCommonPrefixes pc path] }
          fileInfos

/-- The computation of `NextMarker` at the end of `bucketHandler.get`. -/
def setNextMarker (result : ListBucketResult) : ListBucketResult :=
  if result.IsTruncated then
    match result.Contents.getLast?, result.CommonPrefixes.getLast? with
    | some c, none => { result with NextMarker := c.Key }
    | none, some p => { result with NextMarker := p.Prefix }
    | some c, some p =>
      if !stringLE c.Key p.Prefix then { result with NextMarker := c.Key }
      else { result with NextMarker := p.Prefix }
    | none, none => result
  else result

/-- Transliteration of `bucketHandler.get`. -/
def bucketHandler.get (pc : Client) (r : Request) : Response :=
  match pc.inspectBranch r.repo r.branch with
  | .error err => .notFoundError err
  | .ok branchInfo =>
    let parsed : Option Int :=
      if r.maxKeys ≠ "" then
        match pc.atoi r.maxKeys with
        | none => none
        | some i => if i < 0 ∨ i > defaultMaxKeys then none else some i
      else some defaultMaxKeys
    match parsed with
    | none => .invalidArgument
    | some maxKeys =>
      if r.delimiter ≠ "" ∧ r.delimiter ≠ "/" then .invalidDelimiterError
      else
        let recursive : Bool := decide (r.delimiter = "")
        let result : ListBucketResult :=
          { Contents := [], CommonPrefixes := [], Delimiter := r.delimiter,
            IsTruncated := false, Marker := r.marker, MaxKeys := maxKeys, Name := r.repo,
            NextMarker := "", Prefix := r.pfx }
        match branchInfo.head with
        | none => .ok result
        | some _ =>
          let pattern := if recursive then pc.quoteMeta result.Prefix ++ "**"
            else pc.quoteMeta result.Prefix ++ "*"
          match pc.globFile result.Name r.branch pattern with
          | .error err => .internalError err
          | .ok fileInfos =>
            match listLoop pc r.branch recursive result fileInfos with
            | .error err => .internalError err
            | .ok result => .ok (setNextMarker result)

/-- Whether the loop of `bucketHandler.get` takes a file info when the result
is not full: it passes the tests on its type, on the prefix and on the
marker. -/
def eligible (recursive : Bool) (pfx marker : String) (fileInfo : FileInfo) : Bool :=
  !skippedByType recursive fileInfo &&
    hasPrefix (stripLeadingSlash fileInfo.path) pfx &&
    !stringLE (stripLeadingSlash fileInfo.path) marker

/-- The key under which a file info is listed: its path without the leading
slash, followed by a slash for a directory. -/
def listedKey (fileInfo : FileInfo) : String :=
  if fileInfo.fileType = .FILE then stripLeadingSlash fileInfo.path
  else stripLeadingSlash fileInfo.path ++ "/"

/-- The keys of a result: the keys of its contents and its common prefixes. -/
def ListBucketResult.keys (r : ListBucketResult) : List String :=
  r.Contents.map (fun c => c.Key) ++ r.CommonPrefixes.map (fun p => p.Prefix)

/-- What the loop of `bucketHandler.get` has done when it returns `r1` from
the result `r0` that had room for `k` more entries: the request fields are
kept; of the eligible file infos, in order, the first `k` were appended, the
files to the contents and the directories to the common prefixes; and the
result is marked truncated when `MaxKeys` is positive and an eligible file
info was left over. -/
def LoopPost (recursive : Bool) (k : Nat) (fileInfos : List FileInfo)
    (r0 r1 : ListBucketResult) : Prop :=
  r1.MaxKeys = r0.MaxKeys ∧ r1.Marker = r0.Marker ∧ r1.Prefix = r0.Prefix ∧
    r1.Name = r0.Name ∧ r1.Delimiter = r0.Delimiter ∧ r1.NextMarker = r0.NextMarker ∧
    r1.Contents.length + r1.CommonPrefixes.length =
      r0.Contents.length + r0.CommonPrefixes.length +
        min k (fileInfos.filter (eligible recursive r0.Prefix r0.Marker)).length ∧
    r1.IsTruncated = (r0.IsTruncated || (decide (0 < r0.MaxKeys) &&
      decide (k < (fileInfos.filter (eligible recursive r0.Prefix r0.Marker)).length))) ∧
    r1.Contents.map (fun c => c.Key) = r0.Contents.map (fun c => c.Key) ++
      ((((fileInfos.filter (eligible recursive r0.Prefix r0.Marker)).take k).filter
        fun fi => decide (fi.fileType = .FILE)).map fun fi => stripLeadingSlash fi.path) ∧
    r1.CommonPrefixes.map (fun c => c.Prefix) = r0.CommonPrefixes.map (fun c => c.Prefix) ++
      ((((fileInfos.filter (eligible recursive r0.Prefix r0.Marker)).take k).filter
        fun fi => !decide (fi.fileType = .FILE)).map fun fi => stripLeadingSlash fi.path ++ "/")

/-- The result `bucketHandler.get` starts from. -/
def initialResult (r : Request) (maxKeys : Int) : ListBucketResult :=
  { Contents := [], CommonPrefixes := [], Delimiter := r.delimiter,
    IsTruncated := false, Marker := r.marker, MaxKeys := maxKeys, Name := r.repo,
    NextMarker := "", Prefix := r.pfx }

/-- The glob pattern `bucketHandler.get` asks for. -/
def globPattern (pc : Client) (r : Request) : String :=
  if decide (r.delimiter = "") then pc.quoteMeta r.pfx ++ "**" else pc.quoteMeta r.pfx ++ "*"

/-- A sample bucket: the directory `dir` and the file `dir.txt` at the root
of the branch `master` of the repository `images`. -/
def demoClient : Client where
  inspectBranch := fun _ _ => .ok ⟨some "c0ffee"⟩
  globFile := fun _ _ _ => .ok [⟨"/dir", .DIR, 0, 0⟩, ⟨"/dir.txt", .FILE, 12, 0⟩]
  getMeta := fun _ _ _ => .ok none
  timestampFromProto := fun t => .ok t
  atoi := fun s => if s = "0" then some 0 else if s = "1" then some 1
    else if s = "2" then some 2 else none
  quoteMeta := fun s => s
  storageClass := "STANDARD"
  defaultUser := ⟨"00000000000000000000000000000000", "pachyderm"⟩

/-- A page of the sample bucket, non-recursive, with the given `max-keys` and
marker. -/
def demoPage (maxKeys marker : String) : Response :=
  bucketHandler.get demoClient ⟨"images", "master", maxKeys, "/", "", marker⟩

/-- The first page of the sample bucket with `max-keys` 1. -/
def demoFirstPage : ListBucketResult :=
  { Contents := [],
    CommonPrefixes := [⟨"dir/", ⟨"00000000000000000000000000000000", "pachyderm"⟩⟩],
    Delimiter := "/", IsTruncated := true, Marker := "", MaxKeys := 1, Name := "images",
    NextMarker := "dir/", Prefix := "" }

/-- The only page of the sample bucket with `max-keys` 2. -/
def demoFullPage : ListBucketResult :=
  { Contents :=
      [⟨"dir.txt", 0, "", 12, "STANDARD", ⟨"00000000000000000000000000000000", "pachyderm"⟩⟩],
    CommonPrefixes := [⟨"dir/", ⟨"00000000000000000000000000000000", "pachyderm"⟩⟩],
    Delimiter := "/", IsTruncated := false, Marker := "", MaxKeys := 2, Name := "images",
    NextMarker := "", Prefix := "" }

/-- The page of the sample bucket with `max-keys` 1 that follows the first. -/
def demoSecondPage : ListBucketResult :=
  { Contents := [], CommonPrefixes := [], Delimiter := "/", IsTruncated := false,
    Marker := "dir/", MaxKeys := 1, Name := "images", NextMarker := "", Prefix := "" }

end Pachyderm.S3

namespace Pachyderm.Debug

/-- The sample deployment with an output that refuses one entry only, the
error marker of the pending pod of `edges`. -/
def demoEnvPodMarkerFails : Env :=
  { demoEnv with
    writeFails := fun e =>
      match e with
      | .errorMarker path _ =>
        if path = "pipelines/edges/pods/edges-v1-b" then some "write: broken pipe" else none
      | .file _ _ => none }

/-! ## Basic facts about sequencing and the deferred error file -/

theorem andThen_none {α : Type} (t : List α) (k : Option Err × List α) :
    andThen (none, t) k = (k.1, t ++ k.2) := rfl

theorem andThen_some {α : Type} (e : Err) (t : List α) (k : Option Err × List α) :
    andThen (some e, t) k = (some e, t) := rfl

theorem andThen_fst_none {α : Type} (a k : Option Err × List α) (h : a.1 = none) :
    andThen a k = (k.1, a.2 ++ k.2) := by
  obtain ⟨e, t⟩ := a
  simp only at h
  subst h
  rfl

theorem archive_nil : archive [] = [] := rfl

theorem archive_append (s t : List Event) : archive (s ++ t) = archive s ++ archive t := by
  simp [archive, List.filterMap_append]

theorem archive_write (e : Entry) (t : List Event) :
    archive (.write e :: t) = e :: archive t := by
  simp [archive, List.filterMap_cons]

theorem archive_map_write (es : List Entry) : archive (es.map Event.write) = es := by
  induction es with
  | nil => rfl
  | cons e es ih => rw [List.map_cons, archive_write, ih]

theorem writeErrorFile_ok (env : Env) (hw : MarkersWritable env) (err : Err) (p : String) :
    writeErrorFile env err [p] = (none, [.write (.errorMarker p err)]) := by
  simp [writeErrorFile, writeTarEntry, hw p err]

theorem deferWriteErrorFile_none (env : Env) (t : List Event) (p : String) :
    deferWriteErrorFile env (none, t) p = (none, t) := rfl

theorem deferWriteErrorFile_some (env : Env) (hw : MarkersWritable env) (e : Err)
    (t : List Event) (p : String) :
    deferWriteErrorFile env (some e, t) p = (none, t ++ [.write (.errorMarker p e)]) := by
  simp [deferWriteErrorFile, writeErrorFile_ok env hw]

theorem deferWriteErrorFile_fst (env : Env) (hw : MarkersWritable env) (body : Out)
    (p : String) : (deferWriteErrorFile env body p).1 = none := by
  obtain ⟨e, t⟩ := body
  cases e with
  | none => rfl
  | some e => rw [deferWriteErrorFile_some env hw]

theorem handleWorkerRedirect_fst (env : Env) (hw : MarkersWritable env) (pod : Pod)
    (cw : Option collectWorkerFunc) (cb : redirectFunc) (pfx : List String) :
    (handleWorkerRedirect env pod cw cb pfx).1 = none := by
  unfold handleWorkerRedirect
  exact deferWriteErrorFile_fst env hw _ _

theorem handlePipelineRedirect_fst (env : Env) (hw : MarkersWritable env) (p : PipelineInfo)
    (cp : Option collectPipelineFunc) (cw : Option collectWorkerFunc) (rd : redirectFunc) :
    (handlePipelineRedirect env p cp cw rd).1 = none := by
  unfold handlePipelineRedirect
  exact deferWriteErrorFile_fst env hw _ _

theorem forEachPipeline_of_none (cb : PipelineInfo → Out) (h : ∀ p, (cb p).1 = none)
    (ps : List PipelineInfo) :
    forEachPipeline cb ps = (none, ps.flatMap fun p => (cb p).2) := by
  induction ps with
  | nil => rfl
  | cons p ps ih =>
    simp only [forEachPipeline, List.flatMap_cons]
    rw [andThen_fst_none _ _ (h p), ih]

theorem forEachPod_of_none (cb : Pod → Out) (h : ∀ p, (cb p).1 = none) (pods : List Pod) :
    forEachPod cb pods = (none, pods.flatMap fun p => (cb p).2) := by
  induction pods with
  | nil => rfl
  | cons p ps ih =>
    simp only [forEachPod, List.flatMap_cons]
    rw [andThen_fst_none _ _ (h p), ih]

/-! ## The request without a filter -/

theorem handleRedirect_nil_trace (env : Env) (collectPachd collect : collectFunc)
    (collectPipeline : Option collectPipelineFunc) (collectWorker : Option collectWorkerFunc)
    (redirect : redirectFunc) (es : List Entry) (ps : List PipelineInfo)
    (hpachd : collectPachd [join [pachdPrefix, env.name, "pachd"]] = (none, es))
    (hlist : env.listPipeline = .ok ps)
    (hw : MarkersWritable env) :
    handleRedirect env none collectPachd collectPipeline collectWorker redirect collect =
        (none, .collectPachd [join [pachdPrefix, env.name, "pachd"]] :: es.map Event.write ++
          .listPipeline :: ps.flatMap fun p =>
            (handlePipelineRedirect env p collectPipeline collectWorker redirect).2) := by
  simp only [handleRedirect, withDebugWriter, hpachd, hlist, callCollector]
  rw [forEachPipeline_of_none _ (fun p => handlePipelineRedirect_fst env hw p _ _ _)]
  rfl

theorem archive_flatMap {α : Type} (f : α → List Event) (l : List α) :
    archive (l.flatMap f) = l.flatMap fun a => archive (f a) := by
  induction l with
  | nil => rfl
  | cons a l ih => simp only [List.flatMap_cons, archive_append, ih]

theorem mem_andThen_entries (a k : Collected) (e : Entry) (h : e ∈ (andThen a k).2) :
    e ∈ a.2 ∨ e ∈ k.2 := by
  obtain ⟨err, t⟩ := a
  cases err with
  | none => simpa [andThen_none] using h
  | some err => exact Or.inl h

theorem collectDebugFile_path (env : Env) (name : String) (cb : Produced) (q : String)
    (e : Entry) (h : e ∈ (collectDebugFile env name cb [q]).2) :
    e.path = join [q, name] := by
  simp only [collectDebugFile, writeTarEntry] at h
  split at h
  · simp at h
  · split at h
    · simp only [List.mem_singleton] at h
      rw [h]
      rfl
    · simp at h

theorem collectInputRepos_paths (env : Env) (limit : Int) (e : Entry)
    (h : e ∈ (collectInputRepos env limit).2) :
    ∃ repo, e.path = join [join ["input-repos", repo], "commits"] := by
  have loop : ∀ repoInfos, e ∈ (collectInputReposLoop env limit repoInfos).2 →
      ∃ repo, e.path = join [join ["input-repos", repo], "commits"] := by
    intro repoInfos
    induction repoInfos with
    | nil => intro h; simp [collectInputReposLoop] at h
    | cons a l ih =>
      intro h
      simp only [collectInputReposLoop] at h
      split at h
      · split at h
        · exact ⟨a.name, collectDebugFile_path _ _ _ _ e h⟩
        · simp at h
      · exact ih h
  simp only [collectInputRepos] at h
  split at h
  · simp at h
  · exact loop _ h

theorem collectPachdDumpFunc_paths (env : Env) (limit : Int) (p : String) (e : Entry)
    (h : e ∈ (collectPachdDumpFunc env limit [p]).2) :
    (∃ repo, e.path = join [join ["input-repos", repo], "commits"]) ∨
      e.path = join [p, "version"] ∨ e.path = join [p, "logs"] ∨
      e.path = join [p, "goroutine"] ∨ e.path = join [p, "heap"] := by
  simp only [collectPachdDumpFunc] at h
  rcases mem_andThen_entries _ _ e h with h | h
  · exact Or.inl (collectInputRepos_paths env limit e h)
  · rcases mem_andThen_entries _ _ e h with h | h
    · exact Or.inr (Or.inl (collectDebugFile_path _ _ _ _ e h))
    · rcases mem_andThen_entries _ _ e h with h | h
      · exact Or.inr (Or.inr (Or.inl (collectDebugFile_path _ _ _ _ e h)))
      · simp only [collectDump] at h
        rcases mem_andThen_entries _ _ e h with h | h
        · exact Or.inr (Or.inr (Or.inr (Or.inl (collectDebugFile_path _ _ _ _ e h))))
        · exact Or.inr (Or.inr (Or.inr (Or.inr (collectDebugFile_path _ _ _ _ e h))))

/-- C1 (amended): for a nil filter, when collecting the coordinator succeeds,
the pipeline listing succeeds and every error-marker write succeeds, the call
returns nil and its trace is the coordinator collection, then the pipeline
listing, then one block per listed pipeline, in listing order, each block
being what `handlePipelineRedirect` does for that pipeline; each of these
handlers returns nil whatever the collectors and the cluster answer.  The
archive is what the coordinator collector wrote followed by the entries of
one block per listed pipeline.  The coordinator collector of a Binary and of
a Profile request writes under `pachd/<name>/pachd` only; the one of a Dump
writes there its version, logs, goroutine and heap entries and, outside that
subtree, a commits entry under `input-repos/<repo>`. -/
theorem handleRedirect_no_filter (env : Env) (collectPachd collect : collectFunc)
    (collectPipeline : Option collectPipelineFunc) (collectWorker : Option collectWorkerFunc)
    (redirect : redirectFunc) (es : List Entry) (ps : List PipelineInfo)
    (hpachd : collectPachd [join [pachdPrefix, env.name, "pachd"]] = (none, es))
    (hlist : env.listPipeline = .ok ps)
    (hw : MarkersWritable env) :
    handleRedirect env none collectPachd collectPipeline collectWorker redirect collect =
        (none, .collectPachd [join [pachdPrefix, env.name, "pachd"]] :: es.map Event.write ++
          .listPipeline :: ps.flatMap fun p =>
            (handlePipelineRedirect env p collectPipeline collectWorker redirect).2) ∧
      (∀ p, (handlePipelineRedirect env p collectPipeline collectWorker redirect).1 = none) ∧
      archive (handleRedirect env none collectPachd collectPipeline collectWorker redirect
          collect).2 =
        es ++ ps.flatMap (fun p =>
          archive (handlePipelineRedirect env p collectPipeline collectWorker redirect).2) ∧
      (∀ e ∈ (collectBinary env [join [pachdPrefix, env.name, "pachd"]]).2,
        e.path = join [join [pachdPrefix, env.name, "pachd"], "binary"]) ∧
      (∀ profile, ∀ e ∈ (collectProfileFunc env profile [join [pachdPrefix, env.name, "pachd"]]).2,
        e.path = join [join [pachdPrefix, env.name, "pachd"], profile.name]) ∧
      (∀ limit, ∀ e ∈ (collectPachdDumpFunc env limit [join [pachdPrefix, env.name, "pachd"]]).2,
        (∃ repo, e.path = join [join ["input-repos", repo], "commits"]) ∨
          e.path = join [join [pachdPrefix, env.name, "pachd"], "version"] ∨
          e.path = join [join [pachdPrefix, env.name, "pachd"], "logs"] ∨
          e.path = join [join [pachdPrefix, env.name, "pachd"], "goroutine"] ∨
          e.path = join [join [pachdPrefix, env.name, "pachd"], "heap"]) := by
  have htrace := handleRedirect_nil_trace env collectPachd collect collectPipeline
    collectWorker redirect es ps hpachd hlist hw
  refine ⟨htrace, fun p => handlePipelineRedirect_fst env hw p _ _ _, ?_,
    fun e he => collectDebugFile_path _ _ _ _ e he,
    fun profile e he => collectDebugFile_path _ _ _ _ e he,
    fun limit e he => collectPachdDumpFunc_paths env limit _ e he⟩
  rw [htrace]
  have h1 : ∀ q t, archive (Event.collectPachd q :: t) = archive t := fun _ _ => rfl
  have h2 : ∀ t, archive (Event.listPipeline :: t) = archive t := fun _ => rfl
  simp only [h1, archive_append, archive_map_write, h2, archive_flatMap]

/-- C1 as stated fails for a Dump: on the sample deployment the coordinator
collector succeeds, the marker writes succeed and the filterless Dump returns
nil, but its archive holds the entry `input-repos/images/commits`, which lies
neither in the subtree of the coordinator nor in that of a listed pipeline. -/
theorem dump_input_repos_counterexample :
    MarkersWritable demoEnv ∧
      (collectPachdDumpFunc demoEnv 2 ["pachd/pachd-0/pachd"]).1 = none ∧
      demoEnv.listPipeline = .ok [⟨"edges", 1⟩, ⟨"montage", 2⟩] ∧
      (debugServer.Dump demoEnv ⟨none, 2⟩).1 = none ∧
      Entry.file "input-repos/images/commits" ["images-c1", "images-c2"] ∈
        archive (debugServer.Dump demoEnv ⟨none, 2⟩).2 ∧
      pathUnder "pachd/pachd-0" "input-repos/images/commits" = false ∧
      pathUnder "pipelines/edges" "input-repos/images/commits" = false ∧
      pathUnder "pipelines/montage" "input-repos/images/commits" = false :=
  ⟨fun _ _ => rfl, by decide, rfl, by decide, by decide, by decide, by decide, by decide⟩

/-- Witness for C1 on the sample deployment, with the Binary collectors. -/
theorem handleRedirect_no_filter_witness :
    (debugServer.Binary demoEnv { filter := none }).1 = none ∧
      archive (debugServer.Binary demoEnv { filter := none }).2 =
        [.file "pachd/pachd-0/pachd/binary" ["ELF"],
         .file "pipelines/edges/pods/edges-v1-a/binary" ["10.0.0.1"],
         .errorMarker "pipelines/edges/pods/edges-v1-b"
           "pod in phase Pending, must be in phase Running to collect debug information",
         .errorMarker "pipelines/montage" "no worker pods found for pipeline montage"] := by
  have h := handleRedirect_no_filter demoEnv (collectBinary demoEnv) (collectBinary demoEnv)
    none none (redirectBinaryFunc demoEnv) [.file "pachd/pachd-0/pachd/binary" ["ELF"]]
    [⟨"edges", 1⟩, ⟨"montage", 2⟩] (by decide) rfl (fun _ _ => rfl)
  constructor
  · simp only [debugServer.Binary]
    rw [h.1]
  · simp only [debugServer.Binary]
    rw [h.1]
    decide

/-! ## A worker filter that names a pod which is not running -/

theorem handleWorkerRedirect_not_running (env : Env) (hw : MarkersWritable env) (pod : Pod)
    (hphase : pod.phase ≠ PodRunning) (cb : redirectFunc) :
    handleWorkerRedirect env pod none cb [] =
      (none, [.write (.errorMarker (join [podPrefix, pod.name]) (phaseError pod.phase))]) := by
  simp only [handleWorkerRedirect, handleWorkerRedirectBody, workerPrefixOf, andThen_none,
    hphase, ne_eq, not_false_eq_true, if_true, List.nil_append]
  rw [deferWriteErrorFile_some env hw]
  rfl

theorem collectWorkerDump_ok (env : Env) (pod : Pod) (p : String) (es : List Entry)
    (h : collectWorkerDump env pod [p] = (none, es)) :
    ∃ u s, es = [.file (join [join [p, env.PPSWorkerUserContainerName], "logs"]) u,
      .file (join [join [p, env.PPSWorkerSidecarContainerName], "logs"]) s] := by
  simp only [collectWorkerDump, collectLogs, collectDebugFile, writeTarEntry, andThen] at h
  refine ⟨(copyStream (env.getLogs pod.name env.PPSWorkerUserContainerName)).2,
    (copyStream (env.getLogs pod.name env.PPSWorkerSidecarContainerName)).2, ?_⟩
  split at h <;> split at h <;> (try split at h) <;> (try split at h) <;> (try split at h) <;>
    simp_all

/-- C2 (amended): for a worker filter that is not redirected and names a pod
whose phase is not Running, when the marker write succeeds, a Profile request
and a Binary request write exactly one entry, the error marker at the path
of the pod, whose text is the phase error for the phase of the pod, and
return nil.  A Dump request runs the worker collector before the phase check:
when that collector succeeds, the archive is the user and storage log
entries of the pod followed by the same error marker. -/
theorem worker_filter_not_running (env : Env) (P : String) (pod : Pod)
    (hget : env.getPod P = .ok pod) (hphase : pod.phase ≠ PodRunning)
    (hw : MarkersWritable env) :
    (∀ profile, debugServer.Profile env ⟨profile, some (.worker P false)⟩ =
        (none, [.getPod P,
          .write (.errorMarker (join [podPrefix, pod.name]) (phaseError pod.phase))])) ∧
    debugServer.Binary env ⟨some (.worker P false)⟩ =
        (none, [.getPod P,
          .write (.errorMarker (join [podPrefix, pod.name]) (phaseError pod.phase))]) ∧
    ∀ limit es, collectWorkerDump env pod [join [podPrefix, pod.name]] = (none, es) →
      (∃ u s, es =
        [.file (join [join [join [podPrefix, pod.name], env.PPSWorkerUserContainerName], "logs"]) u,
         .file (join [join [join [podPrefix, pod.name], env.PPSWorkerSidecarContainerName],
           "logs"]) s]) ∧
      (debugServer.Dump env ⟨some (.worker P false), limit⟩).1 = none ∧
      archive (debugServer.Dump env ⟨some (.worker P false), limit⟩).2 =
        es ++ [.errorMarker (join [podPrefix, pod.name]) (phaseError pod.phase)] := by
  refine ⟨fun profile => ?_, ?_, fun limit es hes => ⟨collectWorkerDump_ok env pod _ es hes, ?_⟩⟩
  · simp only [debugServer.Profile, handleRedirect, withDebugWriter, hget, Bool.false_eq_true,
      if_false]
    rw [handleWorkerRedirect_not_running env hw pod hphase]
  · simp only [debugServer.Binary, handleRedirect, withDebugWriter, hget, Bool.false_eq_true,
      if_false]
    rw [handleWorkerRedirect_not_running env hw pod hphase]
  · simp only [debugServer.Dump, handleRedirect, withDebugWriter, hget, Bool.false_eq_true,
      if_false, handleWorkerRedirect, handleWorkerRedirectBody, workerPrefixOf, hes,
      callCollector, andThen_none, hphase, ne_eq, not_false_eq_true, if_true]
    rw [deferWriteErrorFile_some env hw]
    simp only [List.cons_append, List.nil_append, archive_append, archive_write, archive_nil]
    have h1 : ∀ pfx t, archive (Event.getPod pfx :: t) = archive t := fun _ _ => rfl
    have h2 : ∀ q pfx t, archive (Event.collectWorker q pfx :: t) = archive t := fun _ _ _ => rfl
    simp [h1, h2, archive_append, archive_map_write, archive_write, archive_nil]

/-- Witness for C2 (amended) on the pending pod of the sample deployment. -/
theorem worker_filter_not_running_witness :
    debugServer.Binary demoEnv ⟨some (.worker "edges-v1-b" false)⟩ =
      (none, [.getPod "edges-v1-b",
        .write (.errorMarker "pods/edges-v1-b"
          "pod in phase Pending, must be in phase Running to collect debug information")]) :=
  (worker_filter_not_running demoEnv "edges-v1-b" demoPodPending rfl (by decide)
    (fun _ _ => rfl)).2.1

/-- C2 as stated fails for Dump: for the pending pod of the sample deployment
the archive has three entries under the path of the pod, the two log entries
and the error marker, not the marker alone. -/
theorem dump_worker_not_running_counterexample :
    demoEnv.getPod "edges-v1-b" = .ok demoPodPending ∧ demoPodPending.phase ≠ PodRunning ∧
    (debugServer.Dump demoEnv ⟨some (.worker "edges-v1-b" false), 0⟩).1 = none ∧
    archive (debugServer.Dump demoEnv ⟨some (.worker "edges-v1-b" false), 0⟩).2 =
      [.file "pods/edges-v1-b/user/logs" ["edges-v1-b user"],
       .file "pods/edges-v1-b/storage/logs" ["edges-v1-b storage"],
       .errorMarker "pods/edges-v1-b"
         "pod in phase Pending, must be in phase Running to collect debug information"] ∧
    archive (debugServer.Dump demoEnv ⟨some (.worker "edges-v1-b" false), 0⟩).2 ≠
      [.errorMarker "pods/edges-v1-b"
         "pod in phase Pending, must be in phase Running to collect debug information"] :=
  ⟨rfl, by decide, by decide, by decide, by decide⟩

/-! ## Failures at the top level of the dispatcher -/

/-- C3 (amended): when the pipeline named by a Pipeline filter cannot be
inspected, and when the pod named by a Worker filter that is not redirected
cannot be looked up, `handleRedirect` returns that error as the error of the
call and writes nothing: no error marker stands for the node. -/
theorem handleRedirect_lookup_fails (env : Env) (collectPachd collect : collectFunc)
    (collectPipeline : Option collectPipelineFunc) (collectWorker : Option collectWorkerFunc)
    (redirect : redirectFunc) (name : String) (err : Err) :
    (env.inspectPipeline name = .error err →
      handleRedirect env (some (.pipeline name)) collectPachd collectPipeline collectWorker
        redirect collect = (some err, [.inspectPipeline name])) ∧
    (env.getPod name = .error err →
      handleRedirect env (some (.worker name false)) collectPachd collectPipeline collectWorker
        redirect collect = (some err, [.getPod name])) := by
  constructor
  · intro h
    simp only [handleRedirect, withDebugWriter, h]
  · intro h
    simp only [handleRedirect, withDebugWriter, h, Bool.false_eq_true, if_false]

/-- Witness for C3 (amended): a pipeline and a pod the sample deployment does
not know. -/
theorem handleRedirect_lookup_fails_witness :
    debugServer.Binary demoEnv ⟨some (.pipeline "nope")⟩ =
        (some "pipeline nope not found", [.inspectPipeline "nope"]) ∧
      debugServer.Binary demoEnv ⟨some (.worker "nope" false)⟩ =
        (some "pods nope not found", [.getPod "nope"]) :=
  ⟨(handleRedirect_lookup_fails demoEnv (collectBinary demoEnv) (collectBinary demoEnv) none none
      (redirectBinaryFunc demoEnv) "nope" "pipeline nope not found").1 rfl,
   (handleRedirect_lookup_fails demoEnv (collectBinary demoEnv) (collectBinary demoEnv) none none
      (redirectBinaryFunc demoEnv) "nope" "pods nope not found").2 rfl⟩

/-- C3 as stated fails: a Dump for a pipeline the control plane does not know
returns the lookup error and its archive is empty, with no error marker. -/
theorem pipeline_lookup_counterexample :
    (debugServer.Dump demoEnv ⟨some (.pipeline "nope"), 0⟩).1 = some "pipeline nope not found" ∧
      archive (debugServer.Dump demoEnv ⟨some (.pipeline "nope"), 0⟩).2 = [] := by
  decide

/-- C4 (amended): for a nil filter, when collecting the coordinator fails,
whatever the error, `handleRedirect` returns that error; the trace ends with
what the coordinator collector wrote before it failed, so no error marker is
written and no pipeline is listed or collected.  For a Dump this is what
happens when the repository listing fails, and when a pipeline lookup inside
`collectInputRepos` fails with an error that does not say not found. -/
theorem handleRedirect_pachd_fails (env : Env) :
    (∀ (collectPachd collect : collectFunc) (collectPipeline : Option collectPipelineFunc)
        (collectWorker : Option collectWorkerFunc) (redirect : redirectFunc)
        (err : Err) (es : List Entry),
      collectPachd [join [pachdPrefix, env.name, "pachd"]] = (some err, es) →
      handleRedirect env none collectPachd collectPipeline collectWorker redirect collect =
        (some err, .collectPachd [join [pachdPrefix, env.name, "pachd"]] ::
          es.map Event.write)) ∧
    (∀ limit err, env.listRepo = .error err →
      debugServer.Dump env ⟨none, limit⟩ =
        (some err, [.collectPachd [join [pachdPrefix, env.name, "pachd"]]])) ∧
    (∀ limit err repoInfo repoInfos, env.listRepo = .ok (repoInfo :: repoInfos) →
      env.inspectPipeline repoInfo.name = .error err →
      stringsContains err "not found" = false →
      debugServer.Dump env ⟨none, limit⟩ =
        (some err, [.collectPachd [join [pachdPrefix, env.name, "pachd"]]])) := by
  have key : ∀ (collectPachd collect : collectFunc)
      (collectPipeline : Option collectPipelineFunc)
      (collectWorker : Option collectWorkerFunc) (redirect : redirectFunc)
      (err : Err) (es : List Entry),
      collectPachd [join [pachdPrefix, env.name, "pachd"]] = (some err, es) →
      handleRedirect env none collectPachd collectPipeline collectWorker redirect collect =
        (some err, .collectPachd [join [pachdPrefix, env.name, "pachd"]] ::
          es.map Event.write) := by
    intro collectPachd collect collectPipeline collectWorker redirect err es h
    simp only [handleRedirect, withDebugWriter, h, callCollector, andThen_some]
  refine ⟨key, fun limit err h => ?_, fun limit err repoInfo repoInfos h1 h2 h3 => ?_⟩
  · simp only [debugServer.Dump]
    rw [key _ _ _ _ _ err []]
    · rfl
    · simp only [collectPachdDumpFunc, collectInputRepos, h, andThen_some]
  · simp only [debugServer.Dump]
    rw [key _ _ _ _ _ err []]
    · rfl
    · simp [collectPachdDumpFunc, collectInputRepos, collectInputReposLoop, h1, h2, h3,
        andThen_some]

/-- Witness for C4 (amended): the sample deployment with a control plane that
cannot list repositories. -/
theorem handleRedirect_pachd_fails_witness :
    debugServer.Dump demoEnvNoRepos ⟨none, 5⟩ =
      (some "rpc error: code = Unavailable", [.collectPachd ["pachd/pachd-0/pachd"]]) :=
  (handleRedirect_pachd_fails demoEnvNoRepos).2.1 5 "rpc error: code = Unavailable" rfl

/-- C4 as stated fails: when the repository listing fails, the filterless Dump
returns the error, writes no error marker and lists no pipeline. -/
theorem pachd_failure_counterexample :
    (debugServer.Dump demoEnvNoRepos ⟨none, 5⟩).1 = some "rpc error: code = Unavailable" ∧
      archive (debugServer.Dump demoEnvNoRepos ⟨none, 5⟩).2 = [] ∧
      Event.listPipeline ∉ (debugServer.Dump demoEnvNoRepos ⟨none, 5⟩).2 := by
  decide

/-! ## One unreachable pod -/

theorem flatMap_congr_mem {α β : Type} (f g : α → List β) (l : List α)
    (h : ∀ x ∈ l, f x = g x) : l.flatMap f = l.flatMap g := by
  induction l with
  | nil => rfl
  | cons a l ih =>
    simp only [List.flatMap_cons]
    rw [h a (List.mem_cons_self a l), ih (fun x hx => h x (List.mem_cons_of_mem a hx))]

theorem handleWorkerRedirect_redirectFailingAt_of_ne (env : Env) (q : Pod)
    (cw : Option collectWorkerFunc) (rd : redirectFunc) (c0 : DebugClient) (name : String)
    (e : Err) (pfx : List String) (h : q.name ≠ name) :
    handleWorkerRedirect env q cw (redirectFailingAt rd c0 name e) pfx =
      handleWorkerRedirect env q cw rd pfx := by
  have hrd : ∀ c, redirectFailingAt rd c0 name e c (.worker q.name true) =
      rd c (.worker q.name true) := by
    intro c
    simp [redirectFailingAt, h]
  simp only [handleWorkerRedirect, handleWorkerRedirectBody, hrd]

theorem handlePipelineRedirect_trace (env : Env) (hw : MarkersWritable env) (p : PipelineInfo)
    (cp : Option collectPipelineFunc) (cw : Option collectWorkerFunc) (rd : redirectFunc)
    (pods : List Pod) (hpods : env.listPods p = .ok pods) (hne : pods ≠ [])
    (head : List Event)
    (hcp : (match cp with
      | none => ((none, []) : Out)
      | some f => callCollector (.collectPipeline p [join [pipelinePrefix, p.name]])
          (f p [join [pipelinePrefix, p.name]])) = (none, head)) :
    handlePipelineRedirect env p cp cw rd =
      (none, head ++ .listPods p :: pods.flatMap fun q =>
        (handleWorkerRedirect env q cw rd [join [pipelinePrefix, p.name]]).2) := by
  have hlen : pods.length ≠ 0 := by
    cases pods with
    | nil => exact absurd rfl hne
    | cons a l => simp
  simp only [handlePipelineRedirect, handlePipelineRedirectBody, hcp, forEachWorker,
    getWorkerPods, hpods, hlen, if_false, andThen_none]
  rw [forEachPod_of_none _ (fun q => handleWorkerRedirect_fst env hw q _ _ _)]
  rfl

theorem handlePipelineRedirect_redirectFailingAt_of_ne (env : Env) (p : PipelineInfo)
    (cp : Option collectPipelineFunc) (cw : Option collectWorkerFunc) (rd : redirectFunc)
    (c0 : DebugClient) (name : String) (e : Err)
    (h : ∀ pods, env.listPods p = .ok pods → ∀ q ∈ pods, q.name ≠ name) :
    handlePipelineRedirect env p cp cw (redirectFailingAt rd c0 name e) =
      handlePipelineRedirect env p cp cw rd := by
  have key : ∀ pods : List Pod, (∀ q ∈ pods, q.name ≠ name) →
      forEachPod (fun pod => handleWorkerRedirect env pod cw (redirectFailingAt rd c0 name e)
        [join [pipelinePrefix, p.name]]) pods =
      forEachPod (fun pod => handleWorkerRedirect env pod cw rd
        [join [pipelinePrefix, p.name]]) pods := by
    intro pods
    induction pods with
    | nil => intro _; rfl
    | cons a l ih =>
      intro hl
      simp only [forEachPod]
      rw [handleWorkerRedirect_redirectFailingAt_of_ne env a cw rd c0 name e _
        (hl a (List.mem_cons_self a l)), ih (fun q hq => hl q (List.mem_cons_of_mem a hq))]
  simp only [handlePipelineRedirect, handlePipelineRedirectBody, forEachWorker, getWorkerPods]
  cases hp : env.listPods p with
  | error err => rfl
  | ok pods => simp only [key pods (h pods hp)]

theorem handleWorkerRedirect_unreachable (env : Env) (hw : MarkersWritable env) (x : Pod)
    (cw : Option collectWorkerFunc) (rd : redirectFunc) (c0 : DebugClient) (e : Err)
    (p : String) (head : List Event)
    (hrun : x.phase = PodRunning) (hclient : env.newClient x.podIP = .ok c0)
    (hcw : (match cw with
      | none => ((none, []) : Out)
      | some f => callCollector (.collectWorker x [join [p, join [podPrefix, x.name]]])
          (f x [join [p, join [podPrefix, x.name]]])) = (none, head)) :
    handleWorkerRedirect env x cw (redirectFailingAt rd c0 x.name e) [p] =
      (none, head ++ [.newClient x.podIP, .redirect c0 (.worker x.name true),
        .write (.errorMarker (join [p, join [podPrefix, x.name]]) e)]) := by
  simp only [handleWorkerRedirect, handleWorkerRedirectBody, workerPrefixOf, hcw, hrun, ne_eq,
    not_true_eq_false, if_false, hclient, redirectFailingAt, and_self, if_true, andThen_none]
  rw [deferWriteErrorFile_some env hw]
  simp

theorem handleWorkerRedirect_reachable (env : Env) (x : Pod)
    (cw : Option collectWorkerFunc) (rd : redirectFunc) (c0 : DebugClient) (r : Reader)
    (p : String) (head : List Event)
    (hrun : x.phase = PodRunning) (hclient : env.newClient x.podIP = .ok c0)
    (hbase : rd c0 (.worker x.name true) = .ok r)
    (hcw : (match cw with
      | none => ((none, []) : Out)
      | some f => callCollector (.collectWorker x [join [p, join [podPrefix, x.name]]])
          (f x [join [p, join [podPrefix, x.name]]])) = (none, head)) :
    (handleWorkerRedirect env x cw rd [p]).2 =
      head ++ [.newClient x.podIP, .redirect c0 (.worker x.name true)] ++
        (deferWriteErrorFile env
          (collectDebugStream env r [join [p, join [podPrefix, x.name]]])
          (join [p, join [podPrefix, x.name]])).2 := by
  simp only [handleWorkerRedirect, handleWorkerRedirectBody, workerPrefixOf, hcw, hrun, ne_eq,
    not_true_eq_false, if_false, hclient, hbase, andThen_none]
  generalize collectDebugStream env r [join [p, join [podPrefix, x.name]]] = m
  obtain ⟨me, mt⟩ := m
  cases me <;> simp [deferWriteErrorFile]

/-- C5: in a filterless call, let pipeline `p` be listed with pods
`pre ++ x :: post`, all Running, and let the redirect to pod `x` fail with
`e` where it succeeds in the baseline run; the names of the other pods differ
from the name of `x`, the marker writes succeed, and the steps before the
redirect (coordinator, metadata of `p`, worker collector of `x`) succeed.
Then both runs return nil and their traces share everything before and
after the block of `x`: the coordinator, the other pipelines and every other
pod of `p` are handled alike.  In the failing run the block of `x` is its
worker collector, the connection, the redirect, and one error marker at the
path of `x` carrying `e`. -/
theorem one_unreachable_pod (env : Env) (hw : MarkersWritable env)
    (collectPachd collect : collectFunc) (cp : Option collectPipelineFunc)
    (cw : Option collectWorkerFunc) (rd : redirectFunc)
    (P₁ P₂ : List PipelineInfo) (p : PipelineInfo) (pre post : List Pod) (x : Pod)
    (c0 : DebugClient) (r : Reader) (e : Err) (es : List Entry) (headP headX : List Event)
    (hpachd : collectPachd [join [pachdPrefix, env.name, "pachd"]] = (none, es))
    (hlist : env.listPipeline = .ok (P₁ ++ p :: P₂))
    (hpods : env.listPods p = .ok (pre ++ x :: post))
    (hrunning : ∀ q ∈ pre ++ x :: post, q.phase = PodRunning)
    (hclient : env.newClient x.podIP = .ok c0)
    (hbase : rd c0 (.worker x.name true) = .ok r)
    (hcp : (match cp with
      | none => ((none, []) : Out)
      | some f => callCollector (.collectPipeline p [join [pipelinePrefix, p.name]])
          (f p [join [pipelinePrefix, p.name]])) = (none, headP))
    (hcw : (match cw with
      | none => ((none, []) : Out)
      | some f =>
        callCollector
          (.collectWorker x [join [join [pipelinePrefix, p.name], join [podPrefix, x.name]]])
          (f x [join [join [pipelinePrefix, p.name], join [podPrefix, x.name]]])) =
        (none, headX))
    (hother : ∀ q ∈ pre ++ post, q.name ≠ x.name)
    (hothers : ∀ q ∈ P₁ ++ P₂, ∀ pods, env.listPods q = .ok pods →
      ∀ pod ∈ pods, pod.name ≠ x.name) :
    let pp := join [pipelinePrefix, p.name]
    let wp := join [pp, join [podPrefix, x.name]]
    let W := fun q => (handleWorkerRedirect env q cw rd [pp]).2
    let V := fun q => (handlePipelineRedirect env q cp cw rd).2
    let before := .collectPachd [join [pachdPrefix, env.name, "pachd"]] :: es.map Event.write ++
      .listPipeline :: P₁.flatMap V ++ headP ++ .listPods p :: pre.flatMap W
    let after := post.flatMap W ++ P₂.flatMap V
    handleRedirect env none collectPachd cp cw (redirectFailingAt rd c0 x.name e) collect =
        (none, before ++
          (headX ++ [.newClient x.podIP, .redirect c0 (.worker x.name true),
            .write (.errorMarker wp e)]) ++ after) ∧
      handleRedirect env none collectPachd cp cw rd collect =
        (none, before ++
          (headX ++ [.newClient x.podIP, .redirect c0 (.worker x.name true)] ++
            (deferWriteErrorFile env (collectDebugStream env r [wp]) wp).2) ++ after) := by
  intro pp wp W V before after
  have hx : x.phase = PodRunning := hrunning x (by simp)
  have hne : pre ++ x :: post ≠ [] := by simp
  have hP₁ : ∀ q ∈ P₁, (handlePipelineRedirect env q cp cw (redirectFailingAt rd c0 x.name e)).2
      = V q := fun q hq => by
    rw [handlePipelineRedirect_redirectFailingAt_of_ne env q cp cw rd c0 x.name e
      (hothers q (List.mem_append_left _ hq))]
  have hP₂ : ∀ q ∈ P₂, (handlePipelineRedirect env q cp cw (redirectFailingAt rd c0 x.name e)).2
      = V q := fun q hq => by
    rw [handlePipelineRedirect_redirectFailingAt_of_ne env q cp cw rd c0 x.name e
      (hothers q (List.mem_append_right _ hq))]
  have hpre : ∀ q ∈ pre, (handleWorkerRedirect env q cw (redirectFailingAt rd c0 x.name e)
      [pp]).2 = W q := fun q hq => by
    rw [handleWorkerRedirect_redirectFailingAt_of_ne env q cw rd c0 x.name e _
      (hother q (List.mem_append_left _ hq))]
  have hpost : ∀ q ∈ post, (handleWorkerRedirect env q cw (redirectFailingAt rd c0 x.name e)
      [pp]).2 = W q := fun q hq => by
    rw [handleWorkerRedirect_redirectFailingAt_of_ne env q cw rd c0 x.name e _
      (hother q (List.mem_append_right _ hq))]
  constructor
  · rw [handleRedirect_nil_trace env collectPachd collect cp cw _ es _ hpachd hlist hw]
    simp only [List.flatMap_append, List.flatMap_cons]
    rw [flatMap_congr_mem _ V P₁ hP₁, flatMap_congr_mem _ V P₂ hP₂,
      handlePipelineRedirect_trace env hw p cp cw _ _ hpods hne headP hcp]
    simp only [List.flatMap_append, List.flatMap_cons]
    rw [flatMap_congr_mem _ W pre hpre, flatMap_congr_mem _ W post hpost,
      handleWorkerRedirect_unreachable env hw x cw rd c0 e pp headX hx hclient hcw]
    simp only [before, after, List.append_assoc, List.cons_append, List.nil_append]
  · rw [handleRedirect_nil_trace env collectPachd collect cp cw _ es _ hpachd hlist hw]
    simp only [List.flatMap_append, List.flatMap_cons]
    rw [handlePipelineRedirect_trace env hw p cp cw _ _ hpods hne headP hcp]
    simp only [List.flatMap_append, List.flatMap_cons]
    rw [handleWorkerRedirect_reachable env x cw rd c0 r pp headX hx hclient hbase hcw]
    simp only [before, after, V, W, wp, List.append_assoc, List.cons_append, List.nil_append]

/-- Witness for C5: in the sample deployment with both pods of `edges`
running, the first pod refuses the connection of a filterless Binary call. -/
theorem one_unreachable_pod_witness :
    archive (handleRedirect demoEnvRunning none (collectBinary demoEnvRunning) none none
      (redirectFailingAt (redirectBinaryFunc demoEnvRunning) "10.0.0.1" demoPodRunning.name
        "connection refused") (collectBinary demoEnvRunning)).2 =
      [.file "pachd/pachd-0/pachd/binary" ["ELF"],
       .errorMarker "pipelines/edges/pods/edges-v1-a" "connection refused",
       .file "pipelines/edges/pods/edges-v1-c/binary" ["10.0.0.3"],
       .errorMarker "pipelines/montage" "no worker pods found for pipeline montage"] := by
  have h := (one_unreachable_pod demoEnvRunning (fun _ _ => rfl)
    (collectBinary demoEnvRunning) (collectBinary demoEnvRunning) none none
    (redirectBinaryFunc demoEnvRunning) [] [⟨"montage", 2⟩] ⟨"edges", 1⟩ [] [demoPodSecond]
    demoPodRunning "10.0.0.1" ⟨[.file "binary" ["10.0.0.1"]], none⟩ "connection refused"
    [.file "pachd/pachd-0/pachd/binary" ["ELF"]] [] []
    (by decide) rfl rfl (by decide) rfl rfl rfl rfl (by decide)
    (by
      intro q hq pods hp pod hpod
      simp only [List.nil_append, List.mem_singleton] at hq
      subst hq
      simp only [demoEnvRunning, demoEnv] at hp
      cases hp
      simp at hpod)).1
  rw [h]
  decide

/-! ## Failure of the output -/

theorem deferWriteErrorFile_fst_iff (env : Env) (body : Out) (p : String) (w : Err) :
    (deferWriteErrorFile env body p).1 = some w ↔
      ∃ e0, body.1 = some e0 ∧ (writeErrorFile env e0 [p]).1 = some w := by
  obtain ⟨e, t⟩ := body
  cases e with
  | none => simp [deferWriteErrorFile]
  | some e => simp [deferWriteErrorFile]

theorem forEachPod_stop (cb : Pod → Out) (pre post : List Pod) (x : Pod) (w : Err)
    (hpre : ∀ q ∈ pre, (cb q).1 = none) (hx : (cb x).1 = some w) :
    forEachPod cb (pre ++ x :: post) = (some w, (pre.flatMap fun q => (cb q).2) ++ (cb x).2) := by
  induction pre with
  | nil =>
    rcases hcb : cb x with ⟨e, t⟩
    rw [hcb] at hx
    simp only at hx
    subst hx
    simp [forEachPod, hcb, andThen_some]
  | cons a l ih =>
    have h := ih (fun q hq => hpre q (List.mem_cons_of_mem a hq))
    show andThen (cb a) (forEachPod cb (l ++ x :: post)) = _
    rw [andThen_fst_none _ _ (hpre a (List.mem_cons_self a l)), h]
    simp

theorem forEachPipeline_stop (cb : PipelineInfo → Out) (pre post : List PipelineInfo)
    (x : PipelineInfo) (w : Err)
    (hpre : ∀ q ∈ pre, (cb q).1 = none) (hx : (cb x).1 = some w) :
    forEachPipeline cb (pre ++ x :: post) =
      (some w, (pre.flatMap fun q => (cb q).2) ++ (cb x).2) := by
  induction pre with
  | nil =>
    rcases hcb : cb x with ⟨e, t⟩
    rw [hcb] at hx
    simp only at hx
    subst hx
    simp [forEachPipeline, hcb, andThen_some]
  | cons a l ih =>
    have h := ih (fun q hq => hpre q (List.mem_cons_of_mem a hq))
    show andThen (cb a) (forEachPipeline cb (l ++ x :: post)) = _
    rw [andThen_fst_none _ _ (hpre a (List.mem_cons_self a l)), h]
    simp

theorem deferWriteErrorFile_broken (env : Env) (w : Err) (hb : OutputBroken env w)
    (body : Out) (p : String) (e0 : Err) (h : body.1 = some e0) :
    deferWriteErrorFile env body p = (some w, body.2) := by
  obtain ⟨e, t⟩ := body
  simp only at h
  subst h
  simp [deferWriteErrorFile, writeErrorFile, writeTarEntry, hb p e0]

/-- C6 (amended): `handleWorkerRedirect` and `handlePipelineRedirect` return a
non-nil error exactly when their body failed and writing the error file for
that failure failed too, and the error returned is the write error.  The
first handler that returns an error ends its loop: in `handlePipelineRedirect`
no later pod is visited and the body returns that error; in the filterless
`handleRedirect` no later pipeline is visited and the call returns that
error; with a Pipeline or Worker filter the call returns what the handler
returns.  The error a pod handler returns inside a pipeline is not returned
by the call as it is: it is the failure of the body of the pipeline, whose
deferred function writes it as an error file at the path of the pipeline,
and `handlePipelineRedirect` returns what that write returns, nil when it
succeeds.  When the output has failed for good that write fails as well and
the write error reaches the call. -/
theorem write_failure_aborts (env : Env) (cp : Option collectPipelineFunc)
    (cw : Option collectWorkerFunc) (rd : redirectFunc) :
    (∀ pod pfx w, (handleWorkerRedirect env pod cw rd pfx).1 = some w ↔
      ∃ e0, (handleWorkerRedirectBody env pod cw rd (workerPrefixOf pod pfx)).1 = some e0 ∧
        (writeErrorFile env e0 [workerPrefixOf pod pfx]).1 = some w) ∧
    (∀ p w, (handlePipelineRedirect env p cp cw rd).1 = some w ↔
      ∃ e0, (handlePipelineRedirectBody env p cp cw rd (join [pipelinePrefix, p.name])).1 =
          some e0 ∧
        (writeErrorFile env e0 [join [pipelinePrefix, p.name]]).1 = some w) ∧
    (∀ p pre x post w headP, env.listPods p = .ok (pre ++ x :: post) →
      (match cp with
        | none => ((none, []) : Out)
        | some f => callCollector (.collectPipeline p [join [pipelinePrefix, p.name]])
            (f p [join [pipelinePrefix, p.name]])) = (none, headP) →
      (∀ q ∈ pre, (handleWorkerRedirect env q cw rd [join [pipelinePrefix, p.name]]).1 = none) →
      (handleWorkerRedirect env x cw rd [join [pipelinePrefix, p.name]]).1 = some w →
      handlePipelineRedirectBody env p cp cw rd (join [pipelinePrefix, p.name]) =
        (some w, headP ++ .listPods p ::
          ((pre.flatMap fun q =>
              (handleWorkerRedirect env q cw rd [join [pipelinePrefix, p.name]]).2) ++
            (handleWorkerRedirect env x cw rd [join [pipelinePrefix, p.name]]).2))) ∧
    (∀ (collectPachd collect : collectFunc) es pre x post w,
      collectPachd [join [pachdPrefix, env.name, "pachd"]] = (none, es) →
      env.listPipeline = .ok (pre ++ x :: post) →
      (∀ q ∈ pre, (handlePipelineRedirect env q cp cw rd).1 = none) →
      (handlePipelineRedirect env x cp cw rd).1 = some w →
      handleRedirect env none collectPachd cp cw rd collect =
        (some w, .collectPachd [join [pachdPrefix, env.name, "pachd"]] :: es.map Event.write ++
          .listPipeline ::
            ((pre.flatMap fun q => (handlePipelineRedirect env q cp cw rd).2) ++
              (handlePipelineRedirect env x cp cw rd).2))) ∧
    (∀ (collectPachd collect : collectFunc) name p, env.inspectPipeline name = .ok p →
      handleRedirect env (some (.pipeline name)) collectPachd cp cw rd collect =
        ((handlePipelineRedirect env p cp cw rd).1,
          .inspectPipeline name :: (handlePipelineRedirect env p cp cw rd).2)) ∧
    (∀ (collectPachd collect : collectFunc) name pod, env.getPod name = .ok pod →
      handleRedirect env (some (.worker name false)) collectPachd cp cw rd collect =
        ((handleWorkerRedirect env pod cw rd []).1,
          .getPod name :: (handleWorkerRedirect env pod cw rd []).2)) ∧
    (∀ w, OutputBroken env w →
      (∀ pod pfx e0,
        (handleWorkerRedirectBody env pod cw rd (workerPrefixOf pod pfx)).1 = some e0 →
        (handleWorkerRedirect env pod cw rd pfx).1 = some w) ∧
      (∀ p e0,
        (handlePipelineRedirectBody env p cp cw rd (join [pipelinePrefix, p.name])).1 =
          some e0 →
        (handlePipelineRedirect env p cp cw rd).1 = some w)) ∧
    (∀ p pre x post w (headP : List Event), env.listPods p = .ok (pre ++ x :: post) →
      ((match cp with
        | none => (none, [])
        | some f => callCollector (.collectPipeline p [join [pipelinePrefix, p.name]])
            (f p [join [pipelinePrefix, p.name]])) : Out) = (none, headP) →
      (∀ q ∈ pre, (handleWorkerRedirect env q cw rd [join [pipelinePrefix, p.name]]).1 = none) →
      (handleWorkerRedirect env x cw rd [join [pipelinePrefix, p.name]]).1 = some w →
      handlePipelineRedirect env p cp cw rd =
        ((writeErrorFile env w [join [pipelinePrefix, p.name]]).1,
          (headP ++ .listPods p ::
            ((pre.flatMap fun q =>
                (handleWorkerRedirect env q cw rd [join [pipelinePrefix, p.name]]).2) ++
              (handleWorkerRedirect env x cw rd [join [pipelinePrefix, p.name]]).2)) ++
            (writeErrorFile env w [join [pipelinePrefix, p.name]]).2)) := by
  have hbody : ∀ p pre x post w headP, env.listPods p = .ok (pre ++ x :: post) →
      (match cp with
        | none => ((none, []) : Out)
        | some f => callCollector (.collectPipeline p [join [pipelinePrefix, p.name]])
            (f p [join [pipelinePrefix, p.name]])) = (none, headP) →
      (∀ q ∈ pre, (handleWorkerRedirect env q cw rd [join [pipelinePrefix, p.name]]).1 = none) →
      (handleWorkerRedirect env x cw rd [join [pipelinePrefix, p.name]]).1 = some w →
      handlePipelineRedirectBody env p cp cw rd (join [pipelinePrefix, p.name]) =
        (some w, headP ++ .listPods p ::
          ((pre.flatMap fun q =>
              (handleWorkerRedirect env q cw rd [join [pipelinePrefix, p.name]]).2) ++
            (handleWorkerRedirect env x cw rd [join [pipelinePrefix, p.name]]).2)) := by
    intro p pre x post w headP hpods hcp hpre hx
    have hlen : (pre ++ x :: post).length ≠ 0 := by simp
    simp only [handlePipelineRedirectBody, hcp, forEachWorker, getWorkerPods, hpods, hlen,
      if_false, andThen_none]
    rw [forEachPod_stop _ pre post x w hpre hx]
  refine ⟨fun pod pfx w => ?_, fun p w => ?_, hbody, ?_, ?_, ?_, fun w hb => ⟨?_, ?_⟩, ?_⟩
  · exact deferWriteErrorFile_fst_iff env _ _ w
  · exact deferWriteErrorFile_fst_iff env _ _ w
  · intro collectPachd collect es pre x post w hpachd hlist hpre hx
    simp only [handleRedirect, withDebugWriter, hpachd, hlist, callCollector]
    rw [forEachPipeline_stop _ pre post x w hpre hx]
    rfl
  · intro collectPachd collect name p h
    simp only [handleRedirect, withDebugWriter, h]
  · intro collectPachd collect name pod h
    simp only [handleRedirect, withDebugWriter, h, Bool.false_eq_true, if_false]
  · intro pod pfx e0 h
    simp only [handleWorkerRedirect]
    rw [deferWriteErrorFile_broken env w hb _ _ e0 h]
  · intro p e0 h
    simp only [handlePipelineRedirect]
    rw [deferWriteErrorFile_broken env w hb _ _ e0 h]
  · intro p pre x post w headP hpods hcp hpre hx
    simp only [handlePipelineRedirect]
    rw [hbody p pre x post w headP hpods hcp hpre hx]
    rfl

/-- C6 as stated fails: with an output that refuses only the error marker of
the pending pod of `edges`, `handleWorkerRedirect` returns the write error
for that pod, but `handlePipelineRedirect` writes that error as a marker at
`pipelines/edges` and returns nil, so the filterless Binary call returns nil
and goes on to list the pods of `montage`. -/
theorem pod_write_error_counterexample :
    (handleWorkerRedirect demoEnvPodMarkerFails demoPodPending none
        (redirectBinaryFunc demoEnvPodMarkerFails) ["pipelines/edges"]).1 =
      some "write: broken pipe" ∧
    (handlePipelineRedirect demoEnvPodMarkerFails ⟨"edges", 1⟩ none none
        (redirectBinaryFunc demoEnvPodMarkerFails)).1 = none ∧
    (debugServer.Binary demoEnvPodMarkerFails ⟨none⟩).1 = none ∧
    Event.listPods ⟨"montage", 2⟩ ∈ (debugServer.Binary demoEnvPodMarkerFails ⟨none⟩).2 ∧
    archive (debugServer.Binary demoEnvPodMarkerFails ⟨none⟩).2 =
      [.file "pachd/pachd-0/pachd/binary" ["ELF"],
       .file "pipelines/edges/pods/edges-v1-a/binary" ["10.0.0.1"],
       .errorMarker "pipelines/edges" "write: broken pipe",
       .errorMarker "pipelines/montage" "no worker pods found for pipeline montage"] := by
  decide

/-- Witness for C6 (amended): with an output that takes no error marker, the filterless
Binary call on the sample deployment stops at the pending pod of `edges`,
returns the write error, and never reaches `montage`. -/
theorem write_failure_aborts_witness :
    (debugServer.Binary demoEnvBroken ⟨none⟩).1 = some "write: broken pipe" ∧
      archive (debugServer.Binary demoEnvBroken ⟨none⟩).2 =
        [.file "pachd/pachd-0/pachd/binary" ["ELF"],
         .file "pipelines/edges/pods/edges-v1-a/binary" ["10.0.0.1"]] ∧
      Event.listPods ⟨"montage", 2⟩ ∉ (debugServer.Binary demoEnvBroken ⟨none⟩).2 := by
  have h := (write_failure_aborts demoEnvBroken none none
    (redirectBinaryFunc demoEnvBroken)).2.2.2.1 (collectBinary demoEnvBroken)
    (collectBinary demoEnvBroken) [.file "pachd/pachd-0/pachd/binary" ["ELF"]] []
    ⟨"edges", 1⟩ [⟨"montage", 2⟩] "write: broken pipe" (by decide) rfl (by decide) (by decide)
  simp only [debugServer.Binary]
  rw [h]
  decide

/-! ## The filter sent to a peer -/

theorem all_map_write (es : List Entry) :
    (es.map Event.write).all redirectedWorker = true := by
  induction es with
  | nil => rfl
  | cons e es ih =>
    simp only [List.map_cons, List.all_cons, redirectedWorker, Bool.true_and]
    exact ih

theorem andThen_all (a k : Out) (ha : a.2.all redirectedWorker = true)
    (hk : k.2.all redirectedWorker = true) :
    (andThen a k).2.all redirectedWorker = true := by
  obtain ⟨e, t⟩ := a
  cases e with
  | none => simp only [andThen_none, List.all_append, Bool.and_eq_true]; exact ⟨ha, hk⟩
  | some e => exact ha

theorem callCollector_all (ev : Event) (r : Collected) (hev : redirectedWorker ev = true) :
    (callCollector ev r).2.all redirectedWorker = true := by
  simp only [callCollector, List.all_cons, hev, Bool.true_and]
  exact all_map_write r.2

theorem writeErrorFile_all (env : Env) (err : Err) (pfx : List String) :
    (writeErrorFile env err pfx).2.all redirectedWorker = true := by
  simp only [writeErrorFile]
  exact all_map_write _

theorem deferWriteErrorFile_all (env : Env) (body : Out) (p : String)
    (h : body.2.all redirectedWorker = true) :
    (deferWriteErrorFile env body p).2.all redirectedWorker = true := by
  obtain ⟨e, t⟩ := body
  cases e with
  | none => exact h
  | some e =>
    simp only [deferWriteErrorFile, List.all_append, Bool.and_eq_true]
    exact ⟨h, writeErrorFile_all env e [p]⟩

theorem collectDebugStream_all (env : Env) (r : Reader) (pfx : List String) :
    (collectDebugStream env r pfx).2.all redirectedWorker = true := by
  simp only [collectDebugStream]
  split <;> exact all_map_write _

theorem handleWorkerRedirect_all (env : Env) (pod : Pod) (cw : Option collectWorkerFunc)
    (rd : redirectFunc) (pfx : List String) :
    (handleWorkerRedirect env pod cw rd pfx).2.all redirectedWorker = true := by
  simp only [handleWorkerRedirect]
  apply deferWriteErrorFile_all
  simp only [handleWorkerRedirectBody]
  apply andThen_all
  · cases cw with
    | none => rfl
    | some f => exact callCollector_all _ _ rfl
  · split
    · rfl
    · split
      · rfl
      · split
        · rfl
        · simp only [List.cons_append, List.nil_append, List.all_cons, redirectedWorker,
            Bool.true_and]
          exact collectDebugStream_all env _ _

theorem forEachPod_all (cb : Pod → Out) (h : ∀ q, (cb q).2.all redirectedWorker = true)
    (pods : List Pod) : (forEachPod cb pods).2.all redirectedWorker = true := by
  induction pods with
  | nil => rfl
  | cons a l ih => exact andThen_all _ _ (h a) ih

theorem handlePipelineRedirect_all (env : Env) (p : PipelineInfo)
    (cp : Option collectPipelineFunc) (cw : Option collectWorkerFunc) (rd : redirectFunc) :
    (handlePipelineRedirect env p cp cw rd).2.all redirectedWorker = true := by
  simp only [handlePipelineRedirect]
  apply deferWriteErrorFile_all
  simp only [handlePipelineRedirectBody]
  apply andThen_all
  · cases cp with
    | none => rfl
    | some f => exact callCollector_all _ _ rfl
  · simp only [forEachWorker]
    split
    · rfl
    · split
      · rfl
      · simp only [List.all_cons, redirectedWorker, Bool.true_and]
        exact forEachPod_all _ (fun q => handleWorkerRedirect_all env q cw rd _) _

theorem forEachPipeline_all (cb : PipelineInfo → Out)
    (h : ∀ q, (cb q).2.all redirectedWorker = true) (ps : List PipelineInfo) :
    (forEachPipeline cb ps).2.all redirectedWorker = true := by
  induction ps with
  | nil => rfl
  | cons a l ih => exact andThen_all _ _ (h a) ih

theorem handleRedirect_all (env : Env) (filter : Option Filter)
    (collectPachd collect : collectFunc) (cp : Option collectPipelineFunc)
    (cw : Option collectWorkerFunc) (rd : redirectFunc) :
    (handleRedirect env filter collectPachd cp cw rd collect).2.all redirectedWorker = true := by
  have hall : (andThen (callCollector (.collectPachd [join [pachdPrefix, env.name, "pachd"]])
      (collectPachd [join [pachdPrefix, env.name, "pachd"]]))
      (match env.listPipeline with
        | .error err => ((some err, [.listPipeline]) : Out)
        | .ok pipelineInfos =>
          ((forEachPipeline (fun pipelineInfo =>
              handlePipelineRedirect env pipelineInfo cp cw rd) pipelineInfos).1,
            .listPipeline :: (forEachPipeline (fun pipelineInfo =>
              handlePipelineRedirect env pipelineInfo cp cw rd) pipelineInfos).2))).2.all
      redirectedWorker = true := by
    apply andThen_all
    · exact callCollector_all _ _ rfl
    · split
      · rfl
      · simp only [List.all_cons, redirectedWorker, Bool.true_and]
        exact forEachPipeline_all _ (fun q => handlePipelineRedirect_all env q cp cw rd) _
  cases filter with
  | none => exact hall
  | some f =>
    cases f with
    | unset => exact hall
    | pachd => exact callCollector_all _ _ rfl
    | pipeline name =>
      simp only [handleRedirect, withDebugWriter]
      split
      · rfl
      · simp only [List.all_cons, redirectedWorker, Bool.true_and]
        exact handlePipelineRedirect_all env _ cp cw rd
    | worker podName redirected =>
      cases redirected with
      | true =>
        simp only [handleRedirect, withDebugWriter, if_true]
        split
        · exact callCollector_all _ _ rfl
        · apply andThen_all
          · exact callCollector_all _ _ rfl
          · split
            · rfl
            · simp only [List.all_cons, redirectedWorker, Bool.true_and]
              exact collectDebugStream_all env _ _
      | false =>
        simp only [handleRedirect, withDebugWriter, Bool.false_eq_true, if_false]
        split
        · rfl
        · simp only [List.all_cons, redirectedWorker, Bool.true_and]
          exact handleWorkerRedirect_all env _ cw rd _

theorem mem_andThen (a k : Out) (ev : Event) (h : ev ∈ (andThen a k).2) :
    ev ∈ a.2 ∨ ev ∈ k.2 := by
  obtain ⟨e, t⟩ := a
  cases e with
  | none => simpa [andThen_none] using h
  | some e => exact Or.inl h

theorem mem_callCollector (ev0 : Event) (r : Collected) (ev : Event)
    (h : ev ∈ (callCollector ev0 r).2) : ev = ev0 ∨ ∃ e, ev = .write e := by
  simp only [callCollector, List.mem_cons, List.mem_map] at h
  rcases h with h | ⟨e, _, he⟩
  · exact Or.inl h
  · exact Or.inr ⟨e, he.symm⟩

theorem mem_writeErrorFile (env : Env) (err : Err) (pfx : List String) (ev : Event)
    (h : ev ∈ (writeErrorFile env err pfx).2) : ∃ e, ev = .write e := by
  simp only [writeErrorFile, List.mem_map] at h
  obtain ⟨e, _, he⟩ := h
  exact ⟨e, he.symm⟩

theorem mem_deferWriteErrorFile (env : Env) (body : Out) (p : String) (ev : Event)
    (h : ev ∈ (deferWriteErrorFile env body p).2) : ev ∈ body.2 ∨ ∃ e, ev = .write e := by
  obtain ⟨e, t⟩ := body
  cases e with
  | none => exact Or.inl h
  | some e =>
    simp only [deferWriteErrorFile, List.mem_append] at h
    rcases h with h | h
    · exact Or.inl h
    · exact Or.inr (mem_writeErrorFile env e [p] ev h)

theorem mem_collectDebugStream (env : Env) (r : Reader) (pfx : List String) (ev : Event)
    (h : ev ∈ (collectDebugStream env r pfx).2) : ∃ e, ev = .write e := by
  simp only [collectDebugStream] at h
  split at h <;>
  · simp only [List.mem_map] at h
    obtain ⟨e, _, he⟩ := h
    exact ⟨e, he.symm⟩

theorem handleWorkerRedirect_redirect (env : Env) (pod : Pod) (cw : Option collectWorkerFunc)
    (rd : redirectFunc) (pfx : List String) (c : DebugClient) (f : Filter)
    (h : Event.redirect c f ∈ (handleWorkerRedirect env pod cw rd pfx).2) :
    f = .worker pod.name true := by
  simp only [handleWorkerRedirect] at h
  rcases mem_deferWriteErrorFile _ _ _ _ h with h | ⟨e, he⟩
  · simp only [handleWorkerRedirectBody] at h
    rcases mem_andThen _ _ _ h with h | h
    · cases cw with
      | none => simp at h
      | some g =>
        rcases mem_callCollector _ _ _ h with h | ⟨e, he⟩
        · cases h
        · cases he
    · split at h
      · simp at h
      · split at h
        · simp at h
        · split at h
          · simp only [List.mem_cons, Event.redirect.injEq, List.mem_singleton,
              List.not_mem_nil, or_false, false_or, reduceCtorEq] at h
            exact h.2
          · simp only [List.cons_append, List.nil_append, List.mem_cons, reduceCtorEq,
              Event.redirect.injEq, false_or] at h
            rcases h with h | h
            · exact h.2
            · obtain ⟨e, he⟩ := mem_collectDebugStream _ _ _ _ h
              cases he
  · cases he

/-- C7: every redirect the dispatcher makes carries a Worker filter with
`redirected` set, whatever filter the request carried.  A redirect made by
`handleWorkerRedirect` carries the name of the pod it was given; the redirect
of the redirected branch goes to the sidecar and carries the incoming filter
unchanged. -/
theorem redirect_filter_is_redirected_worker (env : Env) (collectPachd collect : collectFunc)
    (cp : Option collectPipelineFunc) (cw : Option collectWorkerFunc) (rd : redirectFunc) :
    (∀ filter c f,
      Event.redirect c f ∈ (handleRedirect env filter collectPachd cp cw rd collect).2 →
      ∃ pod, f = .worker pod true) ∧
    (∀ pod pfx c f, Event.redirect c f ∈ (handleWorkerRedirect env pod cw rd pfx).2 →
      f = .worker pod.name true) ∧
    (∀ podName sc c f, env.sidecarClient = some sc →
      Event.redirect c f ∈
        (handleRedirect env (some (.worker podName true)) collectPachd cp cw rd collect).2 →
      c = sc ∧ f = .worker podName true) := by
  refine ⟨fun filter c f h => ?_, fun pod pfx c f h =>
    handleWorkerRedirect_redirect env pod cw rd pfx c f h, fun podName sc c f hsc h => ?_⟩
  · have hall := handleRedirect_all env filter collectPachd collect cp cw rd
    have hev := List.all_eq_true.mp hall _ h
    cases f with
    | unset => simp [redirectedWorker] at hev
    | pachd => simp [redirectedWorker] at hev
    | pipeline name => simp [redirectedWorker] at hev
    | worker pod redirected =>
      cases redirected with
      | true => exact ⟨pod, rfl⟩
      | false => simp [redirectedWorker] at hev
  · simp only [handleRedirect, withDebugWriter, if_true, hsc] at h
    rcases mem_andThen _ _ _ h with h | h
    · rcases mem_callCollector _ _ _ h with h | ⟨e, he⟩
      · cases h
      · cases he
    · split at h
      · simp only [List.mem_singleton, Event.redirect.injEq] at h
        exact h
      · simp only [List.mem_cons, Event.redirect.injEq] at h
        rcases h with h | h
        · exact h
        · obtain ⟨e, he⟩ := mem_collectDebugStream _ _ _ _ h
          cases he

/-- Witness for C7: the redirect of the filterless Binary call on the sample
deployment, whose request carried no filter at all. -/
theorem redirect_filter_is_redirected_worker_witness :
    Event.redirect "10.0.0.1" (.worker "edges-v1-a" true) ∈
        (debugServer.Binary demoEnv ⟨none⟩).2 ∧
      ∃ pod, Filter.worker "edges-v1-a" true = .worker pod true :=
  ⟨by decide,
    (redirect_filter_is_redirected_worker demoEnv (collectBinary demoEnv) (collectBinary demoEnv)
      none none (redirectBinaryFunc demoEnv)).1 none "10.0.0.1" (.worker "edges-v1-a" true)
      (by decide)⟩

/-! ## The redirected worker -/

/-- C8: for a Worker filter with `redirected` set.  Without a sidecar client
the call is one call of the local collector, under the name of the sidecar
container, and nothing else.  With a sidecar client the local collector is
called first, under the name of the user container; when it fails the call
ends there with its error; when it succeeds the redirect function is called
once, on the sidecar client with the incoming filter, and the call ends with
the error of the redirect or with the merge of the stream it returned.  The
traces hold no pipeline listing, no pod lookup and no second redirect. -/
theorem redirected_worker (env : Env) (collectPachd collect : collectFunc)
    (cp : Option collectPipelineFunc) (cw : Option collectWorkerFunc) (rd : redirectFunc)
    (podName : String) :
    (env.sidecarClient = none →
      handleRedirect env (some (.worker podName true)) collectPachd cp cw rd collect =
        ((collect [env.PPSWorkerSidecarContainerName]).1,
          .collect [env.PPSWorkerSidecarContainerName] ::
            (collect [env.PPSWorkerSidecarContainerName]).2.map Event.write)) ∧
    (∀ sc, env.sidecarClient = some sc →
      (∀ e es, collect [env.PPSWorkerUserContainerName] = (some e, es) →
        handleRedirect env (some (.worker podName true)) collectPachd cp cw rd collect =
          (some e, .collect [env.PPSWorkerUserContainerName] :: es.map Event.write)) ∧
      (∀ es err, collect [env.PPSWorkerUserContainerName] = (none, es) →
        rd sc (.worker podName true) = .error err →
        handleRedirect env (some (.worker podName true)) collectPachd cp cw rd collect =
          (some err, .collect [env.PPSWorkerUserContainerName] :: es.map Event.write ++
            [.redirect sc (.worker podName true)])) ∧
      (∀ es r, collect [env.PPSWorkerUserContainerName] = (none, es) →
        rd sc (.worker podName true) = .ok r →
        ∃ merged : List Entry,
          handleRedirect env (some (.worker podName true)) collectPachd cp cw rd collect =
            ((collectDebugStream env r []).1,
              .collect [env.PPSWorkerUserContainerName] :: es.map Event.write ++
                .redirect sc (.worker podName true) :: merged.map Event.write))) := by
  refine ⟨fun h => ?_, fun sc h => ⟨fun e es hc => ?_, fun es err hc hr => ?_,
    fun es r hc hr => ?_⟩⟩
  · simp only [handleRedirect, withDebugWriter, if_true, h, callCollector]
  · simp only [handleRedirect, withDebugWriter, if_true, h, callCollector, hc, andThen_some]
  · simp only [handleRedirect, withDebugWriter, if_true, h, callCollector, hc, hr,
      andThen_none, List.cons_append]
  · refine ⟨(copyEntries env r.entries).2, ?_⟩
    simp only [handleRedirect, withDebugWriter, if_true, h, callCollector, hc, hr,
      andThen_none, List.cons_append]
    simp only [collectDebugStream]
    split <;> rfl

/-- Witness for C8: the storage container of the sample deployment has no
sidecar client and answers a redirected Binary request with its own binary. -/
theorem redirected_worker_witness :
    debugServer.Binary demoEnv ⟨some (.worker "edges-v1-a" true)⟩ =
      (none, [.collect ["storage"], .write (.file "storage/binary" ["ELF"])]) :=
  ((redirected_worker demoEnv (collectBinary demoEnv) (collectBinary demoEnv) none none
    (redirectBinaryFunc demoEnv) "edges-v1-a").1 rfl).trans (by decide)

/-! ## Input repositories of the coordinator dump -/

theorem collectDebugFile_length (env : Env) (name : String) (cb : Produced)
    (pfx : List String) : (collectDebugFile env name cb pfx).2.length ≤ 1 := by
  simp only [collectDebugFile, writeTarEntry]
  split
  · simp
  · split <;> simp

/-- C9 fails on the code: `collectInputRepos` returns from inside its loop at
the first repository whose pipeline lookup says not found, so it never writes
more than one commits entry.  In the sample deployment the repositories
`images` and `raw` both have no pipeline; only `images` gets its entry. -/
theorem collectInputRepos_first_orphan_only :
    (∀ env limit, (collectInputRepos env limit).2.length ≤ 1) ∧
    demoEnv.listRepo = .ok [⟨"images"⟩, ⟨"edges"⟩, ⟨"raw"⟩] ∧
    demoEnv.inspectPipeline "images" = .error "pipeline images not found" ∧
    demoEnv.inspectPipeline "raw" = .error "pipeline raw not found" ∧
    collectInputRepos demoEnv 2 =
      (none, [.file "input-repos/images/commits" ["images-c1", "images-c2"]]) := by
  refine ⟨fun env limit => ?_, rfl, rfl, rfl, by decide⟩
  have loop : ∀ repoInfos, (collectInputReposLoop env limit repoInfos).2.length ≤ 1 := by
    intro repoInfos
    induction repoInfos with
    | nil => simp [collectInputReposLoop]
    | cons a l ih =>
      simp only [collectInputReposLoop]
      split
      · split
        · exact collectDebugFile_length _ _ _ _
        · simp
      · exact ih
  simp only [collectInputRepos]
  split
  · simp
  · exact loop _

/-! ## The limit of a Dump -/

theorem listF_jobsCallback (env : Env) (N : Int) (mj : JobInfo → String)
    (endErr : Option Err) :
    ∀ (js : List JobInfo) (k : Nat) (c : Int) (w : List String), N = c + k →
      (∀ j ∈ js, env.marshalJob j = .ok (mj j)) →
      listF (jobsCallback env N) endErr js (c, w) =
        (if js.length ≤ k then endErr else none,
          (c + min k js.length, w ++ (js.take k).map mj), min (k + 1) js.length) := by
  intro js
  induction js with
  | nil =>
    intro k c w _ _
    simp [listF]
  | cons j js ih =>
    intro k c w hN hm
    have hj : env.marshalJob j = .ok (mj j) := hm j (List.mem_cons_self j js)
    cases k with
    | zero =>
      have hc : c ≥ N := by omega
      simp [listF, jobsCallback, hc]
    | succ k =>
      have hc : ¬ c ≥ N := by omega
      have hrec := ih k (c + 1) (w ++ [mj j]) (by omega)
        (fun q hq => hm q (List.mem_cons_of_mem j hq))
      simp only [listF, jobsCallback, hc, if_false, marshalTo, hj, hrec]
      simp only [List.length_cons, Nat.add_le_add_iff_right, List.take_succ_cons, List.map_cons,
        List.append_assoc, List.singleton_append, Nat.add_min_add_right, Prod.mk.injEq,
        true_and, and_true]
      omega

theorem toUInt64_of_nonneg (N : Int) (h0 : 0 ≤ N) (hmax : N ≤ maxInt64) :
    toUInt64 N = N.toNat := by
  have h : N % 2 ^ 64 = N := by
    apply Int.emod_eq_of_lt h0
    have : maxInt64 < 2 ^ 64 := by decide
    omega
  simp only [toUInt64, h]

/-- C10: let the Dump limit be `N` with `1 ≤ N ≤ math.MaxInt64`, and let the
job listing of a pipeline stream the jobs `js`, all of which can be
marshalled.  The callback of the jobs entry writes exactly the first
`min N m` jobs, so never more than `N`; it answers `ErrBreak` without writing
once its counter has reached `N`, and the listing offers it
`min (N + 1) m` jobs, so it stops at the first job beyond the `N`-th.  When
the other steps succeed, `collectPipelineDumpFunc` writes the spec, commits
and jobs entries, the last with that body.  The commit listing is asked with
the bound `N`.  A limit of 0 is served as the limit `math.MaxInt64`, under
which all the jobs are written. -/
theorem dump_limit (env : Env) (N : Int) (hN : 1 ≤ N) (hmax : N ≤ maxInt64)
    (pipeline : String) (js : List JobInfo) (endErr : Option Err) (mj : JobInfo → String)
    (hjobs : env.listJob pipeline = (js, endErr))
    (hm : ∀ j ∈ js, env.marshalJob j = .ok (mj j)) :
    jobsFile env pipeline N =
        ((if js.length ≤ N.toNat then endErr else none, (js.take N.toNat).map mj),
          min (N.toNat + 1) js.length) ∧
      ((js.take N.toNat).map mj).length = min N.toNat js.length ∧
      ((js.take N.toNat).map mj).length ≤ N.toNat ∧
      (∀ c w j, c ≥ N → jobsCallback env N (c, w) j = (some .ErrBreak, (c, w))) ∧
      (∀ p pfx sb cb, p.name = pipeline →
        specFile env pipeline = (none, sb) → commitsFile env pipeline N = (none, cb) →
        (∀ e, env.writeFails e = none) →
        (if js.length ≤ N.toNat then endErr else none) = none →
        collectPipelineDumpFunc env N p [pfx] =
          (none, [.file (join [pfx, "spec"]) sb, .file (join [pfx, "commits"]) cb,
            .file (join [pfx, "jobs"]) ((js.take N.toNat).map mj)])) ∧
      (∀ repo, commitsFile env repo N =
        ((listF (marshalTo env.marshalCommit) (env.listCommit repo N.toNat).2
            (env.listCommit repo N.toNat).1 []).1,
          (listF (marshalTo env.marshalCommit) (env.listCommit repo N.toNat).2
            (env.listCommit repo N.toNat).1 []).2.1)) ∧
      (∀ filter, debugServer.Dump env ⟨filter, 0⟩ = debugServer.Dump env ⟨filter, maxInt64⟩) ∧
      (js.length ≤ maxInt64.toNat →
        jobsFile env pipeline maxInt64 = ((endErr, js.map mj), js.length)) := by
  have hfile : jobsFile env pipeline N =
      ((if js.length ≤ N.toNat then endErr else none, (js.take N.toNat).map mj),
        min (N.toNat + 1) js.length) := by
    simp only [jobsFile, hjobs]
    rw [listF_jobsCallback env N mj endErr js N.toNat 0 [] (by omega) hm]
    simp
  refine ⟨hfile, by simp, by simp, ?_, ?_, ?_, ?_, ?_⟩
  · intro c w j hc
    simp [jobsCallback, hc]
  · intro p pfx sb cb hp hspec hcommits hwrite hend
    simp only [collectPipelineDumpFunc, hp, hspec, hcommits, hfile, hend, collectDebugFile,
      writeTarEntry, hwrite, andThen_none, List.cons_append, List.nil_append]
  · intro repo
    simp only [commitsFile, toUInt64_of_nonneg N (by omega) hmax]
  · intro filter
    have h0 : maxInt64 ≠ 0 := by decide
    simp only [debugServer.Dump, if_true, h0, if_false]
  · intro hlen
    simp only [jobsFile, hjobs]
    have hk : maxInt64 = 0 + ((maxInt64.toNat : Nat) : Int) := by decide
    rw [listF_jobsCallback env maxInt64 mj endErr js maxInt64.toNat 0 [] hk hm]
    simp [hlen, List.take_of_length_le hlen]
    omega

/-- Witness for C10: the pipeline `edges` of the sample deployment has three
jobs; with the limit 2 the jobs entry holds the first two and the listing is
stopped when the third is offered. -/
theorem dump_limit_witness :
    jobsFile demoEnv "edges" 2 = ((none, ["edges-j1", "edges-j2"]), 3) :=
  ((dump_limit demoEnv 2 (by decide) (by decide) "edges"
    [⟨"edges-j1"⟩, ⟨"edges-j2"⟩, ⟨"edges-j3"⟩] none (fun j => j.id) (by decide)
    (fun _ _ => rfl)).1).trans (by decide)

/-! ## A pipeline without pods -/

theorem handlePipelineRedirect_no_pods (env : Env) (p : PipelineInfo)
    (cp : Option collectPipelineFunc) (cw : Option collectWorkerFunc) (rd : redirectFunc)
    (head : List Event)
    (hpods : env.listPods p = .ok [])
    (hcp : (match cp with
      | none => ((none, []) : Out)
      | some f => callCollector (.collectPipeline p [join [pipelinePrefix, p.name]])
          (f p [join [pipelinePrefix, p.name]])) = (none, head))
    (hw : env.writeFails
      (.errorMarker (join [pipelinePrefix, p.name]) (noWorkerPodsError p.name)) = none) :
    handlePipelineRedirect env p cp cw rd =
      (none, head ++ [.listPods p,
        .write (.errorMarker (join [pipelinePrefix, p.name]) (noWorkerPodsError p.name))]) := by
  simp only [handlePipelineRedirect, handlePipelineRedirectBody, hcp, forEachWorker,
    getWorkerPods, hpods, List.length_nil, if_true, andThen_none, deferWriteErrorFile,
    writeErrorFile, writeTarEntry, hw, List.map_cons, List.map_nil]
  simp

/-- C11: for a pipeline whose pod listing succeeds and is empty, when the
metadata collector (if any) succeeded and the marker write succeeds,
`handlePipelineRedirect` returns nil; its trace is what the metadata collector
did, the pod listing, and one error marker at the path of the pipeline whose
text says that no worker pods were found for the pipeline; the archive is the
metadata followed by that marker.  In a filterless call whose marker writes
succeed, the pipelines listed before and after it are handled as usual. -/
theorem pipeline_without_pods (env : Env) (p : PipelineInfo)
    (cp : Option collectPipelineFunc) (cw : Option collectWorkerFunc) (rd : redirectFunc)
    (head : List Event)
    (hpods : env.listPods p = .ok [])
    (hcp : (match cp with
      | none => ((none, []) : Out)
      | some f => callCollector (.collectPipeline p [join [pipelinePrefix, p.name]])
          (f p [join [pipelinePrefix, p.name]])) = (none, head))
    (hw : env.writeFails
      (.errorMarker (join [pipelinePrefix, p.name]) (noWorkerPodsError p.name)) = none) :
    handlePipelineRedirect env p cp cw rd =
        (none, head ++ [.listPods p,
          .write (.errorMarker (join [pipelinePrefix, p.name]) (noWorkerPodsError p.name))]) ∧
      archive (handlePipelineRedirect env p cp cw rd).2 =
        archive head ++
          [.errorMarker (join [pipelinePrefix, p.name]) (noWorkerPodsError p.name)] ∧
      noWorkerPodsError p.name = "no worker pods found for pipeline " ++ p.name ∧
      ∀ (collectPachd collect : collectFunc) es P₁ P₂, MarkersWritable env →
        collectPachd [join [pachdPrefix, env.name, "pachd"]] = (none, es) →
        env.listPipeline = .ok (P₁ ++ p :: P₂) →
        handleRedirect env none collectPachd cp cw rd collect =
          (none, .collectPachd [join [pachdPrefix, env.name, "pachd"]] :: es.map Event.write ++
            .listPipeline ::
              ((P₁.flatMap fun q => (handlePipelineRedirect env q cp cw rd).2) ++
                (head ++ [.listPods p,
                  .write (.errorMarker (join [pipelinePrefix, p.name])
                    (noWorkerPodsError p.name))]) ++
                P₂.flatMap fun q => (handlePipelineRedirect env q cp cw rd).2)) := by
  have h := handlePipelineRedirect_no_pods env p cp cw rd head hpods hcp hw
  refine ⟨h, ?_, rfl, ?_⟩
  · rw [h]
    have h1 : ∀ t, archive (Event.listPods p :: t) = archive t := fun _ => rfl
    rw [archive_append, h1, archive_write, archive_nil]
  · intro collectPachd collect es P₁ P₂ hmw hpachd hlist
    rw [handleRedirect_nil_trace env collectPachd collect cp cw rd es _ hpachd hlist hmw]
    simp only [List.flatMap_append, List.flatMap_cons, h, List.append_assoc]

/-- Witness for C11: the pipeline `montage` of the sample deployment has no
pods; a Binary call collects no pipeline metadata. -/
theorem pipeline_without_pods_witness :
    handlePipelineRedirect demoEnv ⟨"montage", 2⟩ none none (redirectBinaryFunc demoEnv) =
      (none, [.listPods ⟨"montage", 2⟩,
        .write (.errorMarker "pipelines/montage" "no worker pods found for pipeline montage")]) :=
  ((pipeline_without_pods demoEnv ⟨"montage", 2⟩ none none (redirectBinaryFunc demoEnv) []
    rfl rfl rfl).1).trans (by decide)

/-! ## The path given to each node -/

theorem join_pair (a b : String) : join [a, b] = a ++ "/" ++ b := by
  simp [join, String.intercalate, String.intercalate.go, String.append_assoc]

theorem join_triple (a b c : String) : join [a, b, c] = a ++ "/" ++ b ++ "/" ++ c := by
  simp [join, String.intercalate, String.intercalate.go, String.append_assoc]

theorem workerPrefixOf_nil (pod : Pod) : workerPrefixOf pod [] = "pods/" ++ pod.name := by
  simp [workerPrefixOf, podPrefix, join_pair]

theorem workerPrefixOf_pipeline (pod : Pod) (name : String) :
    workerPrefixOf pod [join [pipelinePrefix, name]] =
      "pipelines/" ++ name ++ "/pods/" ++ pod.name := by
  have h : ("/" : String) ++ "pods/" = "/pods/" := by decide
  have h2 : ∀ x : String, "/" ++ ("pods/" ++ x) = "/pods/" ++ x := fun x => by
    rw [← String.append_assoc, h]
  simp [workerPrefixOf, podPrefix, pipelinePrefix, join_pair, String.append_assoc, h2]

theorem mem_copyEntries (env : Env) (es : List Entry) (e : Entry)
    (h : e ∈ (copyEntries env es).2) : e ∈ es := by
  induction es with
  | nil => simp [copyEntries] at h
  | cons a l ih =>
    simp only [copyEntries] at h
    split at h
    · simp at h
    · simp only [List.mem_cons] at h
      rcases h with h | h
      · exact h ▸ List.mem_cons_self a l
      · exact List.mem_cons_of_mem a (ih h)

theorem mem_collectDebugStream_under (env : Env) (r : Reader) (p : String) (ev : Event)
    (h : ev ∈ (collectDebugStream env r [p]).2) :
    ∃ e ∈ r.entries, ev = .write (Entry.under p e) := by
  simp only [collectDebugStream] at h
  have key : ev ∈ ((copyEntries env (r.entries.map (Entry.under p))).2).map Event.write := by
    split at h <;> exact h
  simp only [List.mem_map] at key
  obtain ⟨e, he, hev⟩ := key
  have hmem := mem_copyEntries env _ e he
  simp only [List.mem_map] at hmem
  obtain ⟨e0, he0, hu⟩ := hmem
  exact ⟨e0, he0, by rw [← hev, ← hu]⟩

theorem mem_deferWriteErrorFile_marker (env : Env) (body : Out) (p : String) (ev : Event)
    (h : ev ∈ (deferWriteErrorFile env body p).2) :
    ev ∈ body.2 ∨ ∃ t, ev = .write (.errorMarker p t) := by
  obtain ⟨e, t⟩ := body
  cases e with
  | none => exact Or.inl h
  | some e =>
    simp only [deferWriteErrorFile, List.mem_append] at h
    rcases h with h | h
    · exact Or.inl h
    · right
      simp only [writeErrorFile, writeTarEntry] at h
      split at h
      · simp only [List.map_cons, List.map_nil, List.mem_singleton] at h
        exact ⟨e, h⟩
      · simp at h

theorem mem_forEachPod (cb : Pod → Out) (pods : List Pod) (ev : Event)
    (h : ev ∈ (forEachPod cb pods).2) : ∃ pod ∈ pods, ev ∈ (cb pod).2 := by
  induction pods with
  | nil => simp [forEachPod] at h
  | cons a l ih =>
    simp only [forEachPod] at h
    rcases mem_andThen _ _ _ h with h | h
    · exact ⟨a, List.mem_cons_self a l, h⟩
    · obtain ⟨q, hq, hev⟩ := ih h
      exact ⟨q, List.mem_cons_of_mem a hq, hev⟩

theorem handleWorkerRedirect_events (env : Env) (pod : Pod) (cw : Option collectWorkerFunc)
    (rd : redirectFunc) (pfx : List String) (ev : Event)
    (h : ev ∈ (handleWorkerRedirect env pod cw rd pfx).2) :
    (∃ f, cw = some f ∧ (ev = .collectWorker pod [workerPrefixOf pod pfx] ∨
        ∃ e ∈ (f pod [workerPrefixOf pod pfx]).2, ev = .write e)) ∨
      ev = .newClient pod.podIP ∨
      (∃ c, ev = .redirect c (.worker pod.name true)) ∨
      (∃ c r, rd c (.worker pod.name true) = .ok r ∧
        ∃ e ∈ r.entries, ev = .write (Entry.under (workerPrefixOf pod pfx) e)) ∨
      ∃ t, ev = .write (.errorMarker (workerPrefixOf pod pfx) t) := by
  simp only [handleWorkerRedirect] at h
  rcases mem_deferWriteErrorFile_marker _ _ _ _ h with h | h
  · simp only [handleWorkerRedirectBody] at h
    rcases mem_andThen _ _ _ h with h | h
    · cases cw with
      | none => simp at h
      | some f =>
        left
        refine ⟨f, rfl, ?_⟩
        simp only [callCollector, List.mem_cons, List.mem_map] at h
        rcases h with h | ⟨e, he, hev⟩
        · exact Or.inl h
        · exact Or.inr ⟨e, he, hev.symm⟩
    · split at h
      · simp at h
      · split at h
        · simp only [List.mem_singleton] at h
          exact Or.inr (Or.inl h)
        · split at h
          · simp only [List.mem_cons, List.mem_singleton, List.not_mem_nil, or_false] at h
            rcases h with h | h
            · exact Or.inr (Or.inl h)
            · exact Or.inr (Or.inr (Or.inl ⟨_, h⟩))
          · rename_i c0 _ _ r hr
            simp only [List.cons_append, List.nil_append, List.mem_cons] at h
            rcases h with h | h | h
            · exact Or.inr (Or.inl h)
            · exact Or.inr (Or.inr (Or.inl ⟨_, h⟩))
            · exact Or.inr (Or.inr (Or.inr (Or.inl
                ⟨c0, r, hr, mem_collectDebugStream_under env r _ ev h⟩)))
  · exact Or.inr (Or.inr (Or.inr (Or.inr h)))

theorem handlePipelineRedirect_events (env : Env) (p : PipelineInfo)
    (cp : Option collectPipelineFunc) (cw : Option collectWorkerFunc) (rd : redirectFunc)
    (ev : Event) (h : ev ∈ (handlePipelineRedirect env p cp cw rd).2) :
    (∃ f, cp = some f ∧ (ev = .collectPipeline p [join [pipelinePrefix, p.name]] ∨
        ∃ e ∈ (f p [join [pipelinePrefix, p.name]]).2, ev = .write e)) ∨
      ev = .listPods p ∨
      (∃ t, ev = .write (.errorMarker (join [pipelinePrefix, p.name]) t)) ∨
      ∃ pod, ev ∈ (handleWorkerRedirect env pod cw rd [join [pipelinePrefix, p.name]]).2 := by
  simp only [handlePipelineRedirect] at h
  rcases mem_deferWriteErrorFile_marker _ _ _ _ h with h | h
  · simp only [handlePipelineRedirectBody] at h
    rcases mem_andThen _ _ _ h with h | h
    · cases cp with
      | none => simp at h
      | some f =>
        left
        refine ⟨f, rfl, ?_⟩
        simp only [callCollector, List.mem_cons, List.mem_map] at h
        rcases h with h | ⟨e, he, hev⟩
        · exact Or.inl h
        · exact Or.inr ⟨e, he, hev.symm⟩
    · simp only [forEachWorker] at h
      split at h
      · simp only [List.mem_singleton] at h
        exact Or.inr (Or.inl h)
      · split at h
        · simp only [List.mem_singleton] at h
          exact Or.inr (Or.inl h)
        · simp only [List.mem_cons] at h
          rcases h with h | h
          · exact Or.inr (Or.inl h)
          · obtain ⟨pod, _, hev⟩ := mem_forEachPod _ _ _ h
            exact Or.inr (Or.inr (Or.inr ⟨pod, hev⟩))
  · exact Or.inr (Or.inr (Or.inl h))

theorem collectWorkerDump_paths (env : Env) (pod : Pod) (p : String) (e : Entry)
    (h : e ∈ (collectWorkerDump env pod [p]).2) :
    e.path = join [join [p, env.PPSWorkerUserContainerName], "logs"] ∨
      e.path = join [join [p, env.PPSWorkerSidecarContainerName], "logs"] := by
  have key : ∀ (q : String) (cb : Produced) (x : Entry),
      x ∈ (collectDebugFile env "logs" cb [q]).2 → x.path = join [q, "logs"] := by
    intro q cb x hx
    simp only [collectDebugFile, writeTarEntry] at hx
    split at hx
    · simp at hx
    · split at hx
      · simp only [List.mem_singleton] at hx
        rw [hx]
        rfl
      · simp at hx
  have split2 : ∀ (a k : Collected), e ∈ (andThen a k).2 → e ∈ a.2 ∨ e ∈ k.2 := by
    intro a k hm
    obtain ⟨err, t⟩ := a
    cases err with
    | none => simpa [andThen_none] using hm
    | some err => exact Or.inl hm
  simp only [collectWorkerDump, collectLogs] at h
  rcases split2 _ _ h with h | h
  · exact Or.inl (key _ _ e h)
  · exact Or.inr (key _ _ e h)

/-- C12: the path each node is given.  The coordinator collector is called
with `pachd/<name>/pachd`, under the Pachd filter and at the head of the
filterless call.  Every event of `handlePipelineRedirect` is the metadata
collector called with `pipelines/<pipeline>` or one of its writes, the pod
listing, an error marker at `pipelines/<pipeline>`, or an event of
`handleWorkerRedirect` called with that path.  Every event of
`handleWorkerRedirect` is a worker event for the path
`pipelines/<pipeline>/pods/<pod>` when the pod is reached through its
pipeline, and for `pods/<pod>` when a Worker filter names the pod.  With the
container names `user` and `storage`, every entry the Dump worker collector
writes is `<pod-path>/user/logs` or `<pod-path>/storage/logs`. -/
theorem node_path_prefixes (env : Env) (collectPachd collect : collectFunc)
    (cp : Option collectPipelineFunc) (cw : Option collectWorkerFunc) (rd : redirectFunc) :
    handleRedirect env (some .pachd) collectPachd cp cw rd collect =
        callCollector (.collectPachd ["pachd/" ++ env.name ++ "/pachd"])
          (collectPachd ["pachd/" ++ env.name ++ "/pachd"]) ∧
      (∃ tail, (handleRedirect env none collectPachd cp cw rd collect).2 =
        .collectPachd ["pachd/" ++ env.name ++ "/pachd"] ::
          ((collectPachd ["pachd/" ++ env.name ++ "/pachd"]).2.map Event.write ++ tail)) ∧
      (∀ p ev, ev ∈ (handlePipelineRedirect env p cp cw rd).2 →
        (∃ f, cp = some f ∧ (ev = .collectPipeline p ["pipelines/" ++ p.name] ∨
            ∃ e ∈ (f p ["pipelines/" ++ p.name]).2, ev = .write e)) ∨
          ev = .listPods p ∨
          (∃ t, ev = .write (.errorMarker ("pipelines/" ++ p.name) t)) ∨
          ∃ pod, ev ∈ (handleWorkerRedirect env pod cw rd ["pipelines/" ++ p.name]).2) ∧
      (∀ name pod ev, ev ∈ (handleWorkerRedirect env pod cw rd ["pipelines/" ++ name]).2 →
        IsWorkerNodeEvent cw rd pod ("pipelines/" ++ name ++ "/pods/" ++ pod.name) ev) ∧
      (∀ podName pod, env.getPod podName = .ok pod →
        (handleRedirect env (some (.worker podName false)) collectPachd cp cw rd collect).2 =
          .getPod podName :: (handleWorkerRedirect env pod cw rd []).2) ∧
      (∀ pod ev, ev ∈ (handleWorkerRedirect env pod cw rd []).2 →
        IsWorkerNodeEvent cw rd pod ("pods/" ++ pod.name) ev) ∧
      (env.PPSWorkerUserContainerName = "user" →
        env.PPSWorkerSidecarContainerName = "storage" →
        ∀ pod p e, e ∈ (collectWorkerDump env pod [p]).2 →
          e.path = p ++ "/user/logs" ∨ e.path = p ++ "/storage/logs") := by
  have hpachd : join [pachdPrefix, env.name, "pachd"] = "pachd/" ++ env.name ++ "/pachd" := by
    simp [join_triple, pachdPrefix, String.append_assoc]
  have hpipe : ∀ n : String, join [pipelinePrefix, n] = "pipelines/" ++ n := by
    intro n
    simp [join_pair, pipelinePrefix]
  refine ⟨?_, ?_, ?_, ?_, ?_, ?_, ?_⟩
  · simp only [handleRedirect, withDebugWriter, hpachd]
  · simp only [handleRedirect, withDebugWriter, hpachd]
    generalize collectPachd ["pachd/" ++ env.name ++ "/pachd"] = a
    obtain ⟨err, t⟩ := a
    cases err with
    | none => exact ⟨_, rfl⟩
    | some err => exact ⟨[], by simp [callCollector, andThen_some]⟩
  · intro p ev h
    have := handlePipelineRedirect_events env p cp cw rd ev h
    simpa only [hpipe] using this
  · intro name pod ev h
    have := handleWorkerRedirect_events env pod cw rd _ ev h
    rw [← hpipe, workerPrefixOf_pipeline] at this
    exact this
  · intro podName pod h
    simp only [handleRedirect, withDebugWriter, h, Bool.false_eq_true, if_false]
  · intro pod ev h
    have := handleWorkerRedirect_events env pod cw rd _ ev h
    rw [workerPrefixOf_nil] at this
    exact this
  · intro hu hs pod p e h
    have := collectWorkerDump_paths env pod p e h
    have h1 : ∀ x : String, "/" ++ ("user" ++ ("/" ++ x)) = "/user/" ++ x := fun x => by
      rw [← String.append_assoc "user", ← String.append_assoc "/"]
      rfl
    have h2 : ∀ x : String, "/" ++ ("storage" ++ ("/" ++ x)) = "/storage/" ++ x := fun x => by
      rw [← String.append_assoc "storage", ← String.append_assoc "/"]
      rfl
    simpa [hu, hs, join_pair, String.append_assoc, h1, h2] using this

/-- Witness for C12: the entries the Dump worker collector writes for the
pending pod of the sample deployment. -/
theorem node_path_prefixes_witness :
    ∀ e ∈ (collectWorkerDump demoEnv demoPodPending ["pods/edges-v1-b"]).2,
      e.path = "pods/edges-v1-b" ++ "/user/logs" ∨
        e.path = "pods/edges-v1-b" ++ "/storage/logs" :=
  fun e he => (node_path_prefixes demoEnv (collectBinary demoEnv) (collectBinary demoEnv)
    none none (redirectBinaryFunc demoEnv)).2.2.2.2.2.2 rfl rfl demoPodPending
    "pods/edges-v1-b" e he

/-! ## Profiles -/

/-- C13 fails on the code: when the duration of a `cpu` profile is invalid,
`writeProfile` returns the error after it has started the sampling profiler
and without stopping it, so the profiler is left running.  The two other
paths, no duration and a valid duration, start the profiler, sleep for one
minute or for the duration, and stop it. -/
theorem writeProfile_cpu_invalid_duration :
    (∀ (env : Env) d err,
      writeProfile { env with startCPUProfile := none, durationFromProto := fun _ => .error err }
          ⟨"cpu", some d⟩ = ⟨some err, [], [.startCPUProfile]⟩ ∧
        profilerRunning (writeProfile
          { env with startCPUProfile := none, durationFromProto := fun _ => .error err }
          ⟨"cpu", some d⟩).effects = true) ∧
    writeProfile demoEnv ⟨"cpu", some ⟨1, -1⟩⟩ =
      ⟨some "duration: seconds and nanos have different signs", [], [.startCPUProfile]⟩ ∧
    profilerRunning (writeProfile demoEnv ⟨"cpu", some ⟨1, -1⟩⟩).effects = true ∧
    writeProfile demoEnv ⟨"cpu", none⟩ =
      ⟨none, ["samples"], [.startCPUProfile, .sleep 60000000000, .stopCPUProfile]⟩ ∧
    writeProfile demoEnv ⟨"cpu", some ⟨0, 250000000⟩⟩ =
      ⟨none, ["samples"], [.startCPUProfile, .sleep 250000000, .stopCPUProfile]⟩ ∧
    (∀ (env : Env) ns d,
      profilerRunning (writeProfile
        { env with startCPUProfile := none, durationFromProto := fun _ => .ok ns }
        ⟨"cpu", some d⟩).effects = false) := by
  refine ⟨fun env d err => ⟨rfl, rfl⟩, by decide, by decide, by decide, by decide,
    fun env ns d => rfl⟩

theorem copyEntries_ok (env : Env) (hw : ∀ e, env.writeFails e = none) (es : List Entry) :
    copyEntries env es = (none, es) := by
  induction es with
  | nil => rfl
  | cons a l ih => simp [copyEntries, hw a, ih]

theorem handleWorkerRedirect_redirected (env : Env) (x : Pod)
    (cw : Option collectWorkerFunc) (rd : redirectFunc) (c0 : DebugClient) (r : Reader)
    (pfx : List String) (head : List Event)
    (hrun : x.phase = PodRunning) (hclient : env.newClient x.podIP = .ok c0)
    (hrd : rd c0 (.worker x.name true) = .ok r)
    (hcw : (match cw with
      | none => ((none, []) : Out)
      | some f => callCollector (.collectWorker x [workerPrefixOf x pfx])
          (f x [workerPrefixOf x pfx])) = (none, head)) :
    handleWorkerRedirect env x cw rd pfx =
      ((deferWriteErrorFile env (collectDebugStream env r [workerPrefixOf x pfx])
          (workerPrefixOf x pfx)).1,
        head ++ [.newClient x.podIP, .redirect c0 (.worker x.name true)] ++
          (deferWriteErrorFile env (collectDebugStream env r [workerPrefixOf x pfx])
            (workerPrefixOf x pfx)).2) := by
  simp only [handleWorkerRedirect, handleWorkerRedirectBody, hcw, hrun, ne_eq,
    not_true_eq_false, if_false, hclient, hrd, andThen_none]
  generalize collectDebugStream env r [workerPrefixOf x pfx] = m
  obtain ⟨me, mt⟩ := m
  cases me <;> simp [deferWriteErrorFile]

/-- C14 (amended): for a profile name other than `cpu` that the registry does
not hold, `writeProfile` fails with the error that names the profile, writes
nothing and touches no profiler.  A Profile request for such a name with no
filter or with the Pachd filter returns that error as the error of the call
and writes no entry; a redirected worker returns it likewise.  The error
becomes an error marker only at a caller that reached a worker through a
redirect: when the stream of the peer ends with an error, the caller writes
one marker with it at the path of the pod and returns nil.  For a name the
registry holds, `writeProfile` writes that profile at verbosity 2 without
starting the sampling profiler or sleeping. -/
theorem profile_not_found (env : Env) (name : String) (d : Option DurationProto)
    (hname : name ≠ "cpu") :
    (env.pprofLookup name = none →
      writeProfile env ⟨name, d⟩ =
          ⟨some ("unable to find profile \"" ++ name ++ "\""), [], []⟩ ∧
        (∀ filter, filter = none ∨ filter = some Filter.pachd →
          debugServer.Profile env ⟨⟨name, d⟩, filter⟩ =
            (some ("unable to find profile \"" ++ name ++ "\""),
              [.collectPachd [join [pachdPrefix, env.name, "pachd"]]])) ∧
        (∀ pod, ∃ pfx,
          debugServer.Profile env ⟨⟨name, d⟩, some (.worker pod true)⟩ =
            (some ("unable to find profile \"" ++ name ++ "\""), [.collect [pfx]]))) ∧
    (∀ P pod c r e, env.getPod P = .ok pod → pod.phase = PodRunning →
      env.newClient pod.podIP = .ok c →
      env.peerProfile c ⟨⟨name, d⟩, some (.worker pod.name true)⟩ = .ok r →
      r.err = some e → (∀ x, env.writeFails x = none) →
      debugServer.Profile env ⟨⟨name, d⟩, some (.worker P false)⟩ =
        (none, [.getPod P, .newClient pod.podIP, .redirect c (.worker pod.name true)] ++
          (r.entries.map fun x => Event.write (Entry.under (join [podPrefix, pod.name]) x)) ++
          [.write (.errorMarker (join [podPrefix, pod.name]) e)])) ∧
    (∀ p, env.pprofLookup name = some p →
      writeProfile env ⟨name, d⟩ = ⟨(p 2).1, (p 2).2, [.writeTo name 2]⟩) := by
  have hwp : ∀ h : env.pprofLookup name = none,
      writeProfile env ⟨name, d⟩ =
        ⟨some ("unable to find profile \"" ++ name ++ "\""), [], []⟩ := by
    intro h
    simp only [writeProfile, hname, if_false, h]
  refine ⟨fun h => ⟨hwp h, ?_, ?_⟩, ?_, ?_⟩
  · intro filter hf
    rcases hf with hf | hf <;> subst hf <;>
      simp [debugServer.Profile, handleRedirect, withDebugWriter, collectProfileFunc,
        collectProfile, collectDebugFile, hwp h, callCollector, andThen_some]
  · intro pod
    cases hs : env.sidecarClient with
    | none =>
      exact ⟨env.PPSWorkerSidecarContainerName, by
        simp [debugServer.Profile, handleRedirect, withDebugWriter, collectProfileFunc,
          collectProfile, collectDebugFile, hwp h, callCollector, hs]⟩
    | some sc =>
      exact ⟨env.PPSWorkerUserContainerName, by
        simp [debugServer.Profile, handleRedirect, withDebugWriter, collectProfileFunc,
          collectProfile, collectDebugFile, hwp h, callCollector, hs, andThen_some]⟩
  · intro P pod c r e hget hrun hclient hpeer herr hw
    simp only [debugServer.Profile, handleRedirect, withDebugWriter, hget, Bool.false_eq_true,
      if_false]
    rw [handleWorkerRedirect_redirected env pod none (redirectProfileFunc env ⟨name, d⟩) c r []
      [] hrun hclient hpeer rfl]
    have hwp0 : workerPrefixOf pod [] = join [podPrefix, pod.name] := rfl
    simp [hwp0, collectDebugStream, copyEntries_ok env hw, herr, deferWriteErrorFile,
      writeErrorFile, writeTarEntry, hw, List.map_map, Function.comp_def]
  · intro p h
    simp only [writeProfile, hname, if_false, h]

/-- Witness for C14 (amended): the sample registry holds no profile named
`nonexistent`. -/
theorem profile_not_found_witness :
    writeProfile demoEnv ⟨"nonexistent", none⟩ =
      ⟨some "unable to find profile \"nonexistent\"", [], []⟩ :=
  ((profile_not_found demoEnv "nonexistent" none (by decide)).1 rfl).1

/-- C14 as stated fails: a Profile request without a filter for a name the
registry does not hold returns the error as the error of the call, and the
archive holds no error marker. -/
theorem profile_not_found_counterexample :
    (debugServer.Profile demoEnv ⟨⟨"nonexistent", none⟩, none⟩).1 =
        some "unable to find profile \"nonexistent\"" ∧
      archive (debugServer.Profile demoEnv ⟨⟨"nonexistent", none⟩, none⟩).2 = [] := by
  decide

/-! ## The request sent to a peer -/

/-- C15 (amended): a redirected Profile request carries the profile of the
original, name and duration, and a redirected Binary request carries only a
filter.  A redirected Dump request carries only the filter: its limit is 0
whatever limit the original carried.  For a Worker filter that names a
running pod, the stream the dispatcher merges is what the peer answers to
these requests. -/
theorem redirected_request (env : Env) :
    (∀ profile c f, redirectProfileFunc env profile c f = env.peerProfile c ⟨profile, some f⟩) ∧
    (∀ c f, redirectBinaryFunc env c f = env.peerBinary c ⟨some f⟩) ∧
    (∀ c f, redirectDumpFunc env c f = env.peerDump c ⟨some f, 0⟩) ∧
    (∀ P pod c r profile, env.getPod P = .ok pod → pod.phase = PodRunning →
      env.newClient pod.podIP = .ok c →
      env.peerProfile c ⟨profile, some (.worker pod.name true)⟩ = .ok r →
      debugServer.Profile env ⟨profile, some (.worker P false)⟩ =
        ((deferWriteErrorFile env (collectDebugStream env r [workerPrefixOf pod []])
            (workerPrefixOf pod [])).1,
          .getPod P :: ([.newClient pod.podIP, .redirect c (.worker pod.name true)] ++
            (deferWriteErrorFile env (collectDebugStream env r [workerPrefixOf pod []])
              (workerPrefixOf pod [])).2))) ∧
    (∀ P pod c r limit es, env.getPod P = .ok pod → pod.phase = PodRunning →
      env.newClient pod.podIP = .ok c →
      collectWorkerDump env pod [workerPrefixOf pod []] = (none, es) →
      env.peerDump c ⟨some (.worker pod.name true), 0⟩ = .ok r →
      debugServer.Dump env ⟨some (.worker P false), limit⟩ =
        ((deferWriteErrorFile env (collectDebugStream env r [workerPrefixOf pod []])
            (workerPrefixOf pod [])).1,
          .getPod P :: (.collectWorker pod [workerPrefixOf pod []] :: es.map Event.write ++
            [.newClient pod.podIP, .redirect c (.worker pod.name true)] ++
            (deferWriteErrorFile env (collectDebugStream env r [workerPrefixOf pod []])
              (workerPrefixOf pod [])).2))) := by
  refine ⟨fun _ _ _ => rfl, fun _ _ => rfl, fun _ _ => rfl, ?_, ?_⟩
  · intro P pod c r profile hget hrun hclient hpeer
    simp only [debugServer.Profile, handleRedirect, withDebugWriter, hget, Bool.false_eq_true,
      if_false]
    rw [handleWorkerRedirect_redirected env pod none (redirectProfileFunc env profile) c r []
      [] hrun hclient hpeer rfl]
    simp
  · intro P pod c r limit es hget hrun hclient hcw hpeer
    simp only [debugServer.Dump, handleRedirect, withDebugWriter, hget, Bool.false_eq_true,
      if_false]
    rw [handleWorkerRedirect_redirected env pod (some (collectWorkerDump env))
      (redirectDumpFunc env) c r []
      (.collectWorker pod [workerPrefixOf pod []] :: es.map Event.write) hrun hclient hpeer
      (by simp only [callCollector, hcw])]

/-- Witness for C15 (amended): a Dump with limit 5 for the running pod of the
sample deployment merges what the peer answers to a Dump with limit 0. -/
theorem redirected_request_witness :
    archive (debugServer.Dump demoEnv ⟨some (.worker "edges-v1-a" false), 5⟩).2 =
      [.file "pods/edges-v1-a/user/logs" ["edges-v1-a user"],
       .file "pods/edges-v1-a/storage/logs" ["edges-v1-a storage"],
       .file "pods/edges-v1-a/goroutine" ["10.0.0.1"],
       .file "pods/edges-v1-a/heap" ["10.0.0.1"]] := by
  have h := (redirected_request demoEnv).2.2.2.2 "edges-v1-a" demoPodRunning "10.0.0.1"
    ⟨[.file "goroutine" ["10.0.0.1"], .file "heap" ["10.0.0.1"]], none⟩ 5
    [.file "pods/edges-v1-a/user/logs" ["edges-v1-a user"],
     .file "pods/edges-v1-a/storage/logs" ["edges-v1-a storage"]]
    rfl rfl rfl (by decide) rfl
  rw [h]
  decide

/-- C15 as stated fails for a Dump: peers that answer only a Dump with limit
5 are sent another limit when the original request carries the limit 5, so
the pod gets an error marker. -/
theorem redirected_dump_limit_counterexample :
    archive (debugServer.Dump demoEnvLimitProbe ⟨some (.worker "edges-v1-a" false), 5⟩).2 =
      [.file "pods/edges-v1-a/user/logs" ["edges-v1-a user"],
       .file "pods/edges-v1-a/storage/logs" ["edges-v1-a storage"],
       .errorMarker "pods/edges-v1-a" "peer was sent another limit"] ∧
    redirectDumpFunc demoEnvLimitProbe "10.0.0.1" (.worker "edges-v1-a" true) =
      demoEnvLimitProbe.peerDump "10.0.0.1" ⟨some (.worker "edges-v1-a" true), 0⟩ ∧
    (⟨some (.worker "edges-v1-a" true), 0⟩ : DumpRequest) ≠
      ⟨some (.worker "edges-v1-a" true), 5⟩ :=
  ⟨by decide, rfl, by decide⟩

end Pachyderm.Debug

namespace Pachyderm.S3

/-! ## The loop of the bucket listing -/

theorem listLoop_post (pc : Client) (branch : String) (recursive : Bool) :
    ∀ (fileInfos : List FileInfo) (r0 r1 : ListBucketResult) (k : Nat),
      r0.MaxKeys = ((r0.Contents.length + r0.CommonPrefixes.length : Nat) : Int) + k →
      listLoop pc branch recursive r0 fileInfos = .ok r1 →
      LoopPost recursive k fileInfos r0 r1 := by
  intro fileInfos
  induction fileInfos with
  | nil =>
    intro r0 r1 k _ h
    simp only [listLoop, Except.ok.injEq] at h
    subst h
    simp [LoopPost]
  | cons fi rest ih =>
    intro r0 r1 k hk h
    simp only [listLoop] at h
    by_cases hs : skippedByType recursive fi = true
    · simp only [hs, if_true] at h
      have := ih r0 r1 k hk h
      simpa [LoopPost, List.filter_cons, eligible, hs] using this
    · simp only [hs, Bool.false_eq_true, if_false] at h
      by_cases hp : hasPrefix (stripLeadingSlash fi.path) r0.Prefix = true
      · simp only [hp, Bool.not_true, Bool.false_eq_true, if_false] at h
        by_cases hm : stringLE (stripLeadingSlash fi.path) r0.Marker = true
        · simp only [hm, if_true] at h
          have := ih r0 r1 k hk h
          simpa [LoopPost, List.filter_cons, eligible, hs, hp, hm] using this
        · simp only [hm, Bool.false_eq_true, if_false] at h
          have hel : eligible recursive r0.Prefix r0.Marker fi = true := by
            simp [eligible, hs, hp, hm]
          by_cases hfull : r0.isFull = true
          · have hk0 : k = 0 := by
              simp only [ListBucketResult.isFull, decide_eq_true_eq] at hfull
              omega
            subst hk0
            simp only [hfull, if_true] at h
            by_cases hpos : r0.MaxKeys > 0
            · simp only [hpos, if_true, Except.ok.injEq] at h
              subst h
              simp [LoopPost, List.filter_cons, hel, hpos]
            · simp only [hpos, if_false, Except.ok.injEq] at h
              subst h
              simp [LoopPost, List.filter_cons, hel, hpos]
          · have hk1 : 1 ≤ k := by
              simp only [ListBucketResult.isFull, decide_eq_true_eq] at hfull
              omega
            obtain ⟨k1, rfl⟩ : ∃ k1, k = k1 + 1 := ⟨k - 1, by omega⟩
            simp only [hfull, Bool.false_eq_true, if_false] at h
            by_cases hfile : fi.fileType = .FILE
            · simp only [hfile, if_true] at h
              cases hmeta : pc.getMeta r0.Name branch ("/" ++ stripLeadingSlash fi.path) with
              | error err => simp [hmeta] at h
              | ok meta =>
                simp only [hmeta] at h
                cases hts : pc.timestampFromProto fi.committed with
                | error err => simp [newContents, hts] at h
                | ok t =>
                  simp only [newContents, hts] at h
                  have := ih _ r1 k1 (by simp; omega) h
                  simp only [LoopPost] at this ⊢
                  obtain ⟨h1, h2, h3, h4, h5, h6, h7, h8, h9, h10⟩ := this
                  refine ⟨h1, h2, h3, h4, h5, h6, ?_, ?_, ?_, ?_⟩
                  · rw [h7]
                    simp [List.filter_cons, hel]
                    omega
                  · rw [h8]
                    simp [List.filter_cons, hel]
                  · rw [h9]
                    simp [List.filter_cons, hel, hfile]
                  · rw [h10]
                    simp [List.filter_cons, hel, hfile]
            · simp only [hfile, if_false] at h
              have := ih _ r1 k1 (by simp; omega) h
              simp only [LoopPost] at this ⊢
              obtain ⟨h1, h2, h3, h4, h5, h6, h7, h8, h9, h10⟩ := this
              refine ⟨h1, h2, h3, h4, h5, h6, ?_, ?_, ?_, ?_⟩
              · rw [h7]
                simp [List.filter_cons, hel]
                omega
              · rw [h8]
                simp [List.filter_cons, hel]
              · rw [h9]
                simp [List.filter_cons, hel, hfile]
              · rw [h10]
                simp [List.filter_cons, hel, hfile, newCommonPrefixes]
      · simp only [hp, Bool.not_false, if_true] at h
        have := ih r0 r1 k hk h
        simpa [LoopPost, List.filter_cons, eligible, hs, hp] using this

theorem listLoop_returns (pc : Client) (branch : String) (recursive : Bool)
    (hmeta : ∀ a b c, ∃ m, pc.getMeta a b c = .ok m)
    (hts : ∀ t, ∃ v, pc.timestampFromProto t = .ok v) :
    ∀ (fileInfos : List FileInfo) (r0 : ListBucketResult),
      ∃ r1, listLoop pc branch recursive r0 fileInfos = .ok r1 := by
  intro fileInfos
  induction fileInfos with
  | nil => intro r0; exact ⟨r0, rfl⟩
  | cons fi rest ih =>
    intro r0
    simp only [listLoop]
    split
    · exact ih r0
    · split
      · exact ih r0
      · split
        · exact ih r0
        · split
          · split
            · exact ⟨_, rfl⟩
            · exact ⟨_, rfl⟩
          · split
            · obtain ⟨m, hm⟩ := hmeta r0.Name branch ("/" ++ stripLeadingSlash fi.path)
              obtain ⟨v, hv⟩ := hts fi.committed
              simp only [hm, newContents, hv]
              exact ih _
            · exact ih _

theorem setNextMarker_fields (r : ListBucketResult) :
    (setNextMarker r).Contents = r.Contents ∧
      (setNextMarker r).CommonPrefixes = r.CommonPrefixes ∧
      (setNextMarker r).IsTruncated = r.IsTruncated ∧
      (setNextMarker r).MaxKeys = r.MaxKeys := by
  simp only [setNextMarker]
  split
  · split
    · exact ⟨rfl, rfl, rfl, rfl⟩
    · exact ⟨rfl, rfl, rfl, rfl⟩
    · split <;> exact ⟨rfl, rfl, rfl, rfl⟩
    · exact ⟨rfl, rfl, rfl, rfl⟩
  · exact ⟨rfl, rfl, rfl, rfl⟩

theorem get_ok_cases (pc : Client) (r : Request) (result : ListBucketResult)
    (h : bucketHandler.get pc r = .ok result) :
    ∃ bi maxKeys, pc.inspectBranch r.repo r.branch = .ok bi ∧
      ((r.maxKeys = "" ∧ maxKeys = 1000) ∨
        (r.maxKeys ≠ "" ∧ pc.atoi r.maxKeys = some maxKeys ∧ 0 ≤ maxKeys ∧ maxKeys ≤ 1000)) ∧
      (r.delimiter = "" ∨ r.delimiter = "/") ∧
      ((bi.head = none ∧ result = initialResult r maxKeys) ∨
        ∃ commit fileInfos r1, bi.head = some commit ∧
          pc.globFile r.repo r.branch (globPattern pc r) = .ok fileInfos ∧
          listLoop pc r.branch (decide (r.delimiter = "")) (initialResult r maxKeys) fileInfos =
            .ok r1 ∧
          result = setNextMarker r1) := by
  simp only [bucketHandler.get] at h
  cases hb : pc.inspectBranch r.repo r.branch with
  | error err => simp [hb] at h
  | ok bi =>
    simp only [hb] at h
    have tail : ∀ maxKeys : Int,
        (if r.delimiter ≠ "" ∧ r.delimiter ≠ "/" then Response.invalidDelimiterError
          else
            match bi.head with
            | none => Response.ok (initialResult r maxKeys)
            | some _ =>
              match pc.globFile r.repo r.branch (globPattern pc r) with
              | .error err => Response.internalError err
              | .ok fileInfos =>
                match listLoop pc r.branch (decide (r.delimiter = ""))
                    (initialResult r maxKeys) fileInfos with
                | .error err => Response.internalError err
                | .ok result => Response.ok (setNextMarker result)) = .ok result →
        (r.delimiter = "" ∨ r.delimiter = "/") ∧
        ((bi.head = none ∧ result = initialResult r maxKeys) ∨
          ∃ commit fileInfos r1, bi.head = some commit ∧
            pc.globFile r.repo r.branch (globPattern pc r) = .ok fileInfos ∧
            listLoop pc r.branch (decide (r.delimiter = "")) (initialResult r maxKeys)
              fileInfos = .ok r1 ∧
            result = setNextMarker r1) := by
      intro maxKeys h
      by_cases hd : r.delimiter ≠ "" ∧ r.delimiter ≠ "/"
      · simp [hd] at h
      · simp only [hd, if_false] at h
        refine ⟨by tauto, ?_⟩
        cases hh : bi.head with
        | none =>
          simp only [hh, Response.ok.injEq] at h
          exact Or.inl ⟨rfl, h.symm⟩
        | some commit =>
          simp only [hh] at h
          cases hg : pc.globFile r.repo r.branch (globPattern pc r) with
          | error err => simp [hg] at h
          | ok fileInfos =>
            simp only [hg] at h
            cases hl : listLoop pc r.branch (decide (r.delimiter = ""))
                (initialResult r maxKeys) fileInfos with
            | error err => simp [hl] at h
            | ok r1 =>
              simp only [hl, Response.ok.injEq] at h
              exact Or.inr ⟨commit, fileInfos, r1, rfl, rfl, hl, h.symm⟩
    by_cases hmk : r.maxKeys = ""
    · simp only [hmk, ne_eq, not_true_eq_false, if_false] at h
      have := tail defaultMaxKeys (by simpa only [initialResult, globPattern, hmk] using h)
      exact ⟨bi, 1000, rfl, Or.inl ⟨hmk, rfl⟩, this⟩
    · simp only [ne_eq, hmk, not_false_eq_true, if_true] at h
      cases ha : pc.atoi r.maxKeys with
      | none => simp [ha] at h
      | some i =>
        simp only [ha] at h
        by_cases hi : i < 0 ∨ i > defaultMaxKeys
        · simp [hi] at h
        · simp only [hi, if_false] at h
          have := tail i (by simpa only [initialResult, globPattern] using h)
          have hi2 : 0 ≤ i ∧ i ≤ 1000 := by
            simp only [defaultMaxKeys] at hi
            omega
          exact ⟨bi, i, rfl, Or.inr ⟨hmk, rfl, hi2.1, hi2.2⟩, this⟩

/-- C16: whenever `bucketHandler.get` answers with a result, `max-keys` was
absent (and `MaxKeys` is 1000) or an integer from 0 to 1000; the number of
contents and common prefixes is at most `MaxKeys`; with `MaxKeys` 0 the
result is empty and not truncated; for a branch without a head the result is
empty; and for the file infos the glob returned, the entries are the first
`MaxKeys` eligible file infos, in order, files as contents and directories
as common prefixes, and `IsTruncated` holds exactly when `MaxKeys` is
positive and more than `MaxKeys` file infos are eligible.  The handler does
answer with a result when the branch exists, `max-keys` and the delimiter
are accepted, the glob succeeds and no metadata or timestamp call fails. -/
theorem listing_bounded (pc : Client) (r : Request) :
    (∀ result, bucketHandler.get pc r = .ok result →
      ((r.maxKeys = "" ∧ result.MaxKeys = 1000) ∨
        (r.maxKeys ≠ "" ∧ pc.atoi r.maxKeys = some result.MaxKeys ∧ 0 ≤ result.MaxKeys ∧
          result.MaxKeys ≤ 1000)) ∧
      ((result.Contents.length + result.CommonPrefixes.length : Nat) : Int) ≤ result.MaxKeys ∧
      (result.MaxKeys = 0 →
        result.Contents = [] ∧ result.CommonPrefixes = [] ∧ result.IsTruncated = false) ∧
      (∀ bi, pc.inspectBranch r.repo r.branch = .ok bi → bi.head = none →
        result.Contents = [] ∧ result.CommonPrefixes = [] ∧ result.IsTruncated = false) ∧
      (∀ bi commit fileInfos, pc.inspectBranch r.repo r.branch = .ok bi →
        bi.head = some commit →
        pc.globFile r.repo r.branch (globPattern pc r) = .ok fileInfos →
        result.Contents.length + result.CommonPrefixes.length =
          min result.MaxKeys.toNat
            (fileInfos.filter (eligible (decide (r.delimiter = "")) r.pfx r.marker)).length ∧
        (result.IsTruncated = true ↔ 0 < result.MaxKeys ∧ result.MaxKeys.toNat <
          (fileInfos.filter (eligible (decide (r.delimiter = "")) r.pfx r.marker)).length) ∧
        result.Contents.map (fun c => c.Key) =
          ((((fileInfos.filter (eligible (decide (r.delimiter = "")) r.pfx r.marker)).take
            result.MaxKeys.toNat).filter fun fi => decide (fi.fileType = .FILE)).map
              fun fi => stripLeadingSlash fi.path) ∧
        result.CommonPrefixes.map (fun c => c.Prefix) =
          ((((fileInfos.filter (eligible (decide (r.delimiter = "")) r.pfx r.marker)).take
            result.MaxKeys.toNat).filter fun fi => !decide (fi.fileType = .FILE)).map
              fun fi => stripLeadingSlash fi.path ++ "/"))) ∧
    (∀ bi, pc.inspectBranch r.repo r.branch = .ok bi →
      (r.maxKeys = "" ∨ ∃ i, pc.atoi r.maxKeys = some i ∧ 0 ≤ i ∧ i ≤ 1000) →
      (r.delimiter = "" ∨ r.delimiter = "/") →
      (bi.head = none ∨
        ∃ fileInfos, pc.globFile r.repo r.branch (globPattern pc r) = .ok fileInfos) →
      (∀ a b c, ∃ m, pc.getMeta a b c = .ok m) →
      (∀ t, ∃ v, pc.timestampFromProto t = .ok v) →
      ∃ result, bucketHandler.get pc r = .ok result) := by
  constructor
  · intro result h
    obtain ⟨bi, maxKeys, hb, hmk, _, hres⟩ := get_ok_cases pc r result h
    have hnn : 0 ≤ maxKeys := by rcases hmk with ⟨_, h1⟩ | ⟨_, _, h1, _⟩ <;> omega
    rcases hres with ⟨hhead, rfl⟩ | ⟨commit, fileInfos, r1, hhead, hglob, hloop, rfl⟩
    · refine ⟨?_, ?_, ?_, ?_, ?_⟩
      · simpa [initialResult] using hmk
      · simpa [initialResult] using hnn
      · intro _
        simp [initialResult]
      · intro _ _ _
        simp [initialResult]
      · intro bi2 commit fileInfos hb2 hh2 _
        rw [hb] at hb2
        cases hb2
        rw [hhead] at hh2
        cases hh2
    · have hpost := listLoop_post pc r.branch (decide (r.delimiter = "")) fileInfos
        (initialResult r maxKeys) r1 maxKeys.toNat
        (by simp only [initialResult, List.length_nil]; omega) hloop
      obtain ⟨hc, hp, ht, hm⟩ := setNextMarker_fields r1
      simp only [LoopPost, initialResult, List.length_nil, Nat.add_zero, Nat.zero_add,
        List.map_nil, List.nil_append, Bool.false_or] at hpost
      obtain ⟨h1, _, _, _, _, _, h7, h8, h9, h10⟩ := hpost
      rw [hc, hp, ht, hm, h1]
      refine ⟨?_, ?_, ?_, ?_, ?_⟩
      · exact hmk
      · rw [h7]
        omega
      · intro h0
        subst h0
        simp only [Int.toNat_zero, Nat.zero_min] at h7
        have hcl : r1.Contents = [] := List.eq_nil_of_length_eq_zero (by omega)
        have hpl : r1.CommonPrefixes = [] := List.eq_nil_of_length_eq_zero (by omega)
        refine ⟨hcl, hpl, ?_⟩
        rw [h8]
        simp
      · intro bi2 hb2 hh2
        rw [hb] at hb2
        cases hb2
        rw [hhead] at hh2
        cases hh2
      · intro bi2 commit2 fileInfos2 hb2 _ hglob2
        rw [hglob] at hglob2
        cases hglob2
        refine ⟨h7, ?_, h9, h10⟩
        rw [h8]
        simp
  · intro bi hb hmk hd hhead hmeta hts
    have hd2 : ¬ (r.delimiter ≠ "" ∧ r.delimiter ≠ "/") := by tauto
    have tail : ∀ maxKeys : Int, ∃ result,
        (match bi.head with
          | none => Response.ok (initialResult r maxKeys)
          | some _ =>
            match pc.globFile r.repo r.branch (globPattern pc r) with
            | .error err => Response.internalError err
            | .ok fileInfos =>
              match listLoop pc r.branch (decide (r.delimiter = ""))
                  (initialResult r maxKeys) fileInfos with
              | .error err => Response.internalError err
              | .ok result => Response.ok (setNextMarker result)) = .ok result := by
      intro maxKeys
      rcases hhead with hh | ⟨fileInfos, hg⟩
      · exact ⟨initialResult r maxKeys, by simp only [hh]⟩
      · cases hh : bi.head with
        | none => exact ⟨_, rfl⟩
        | some commit =>
          obtain ⟨r1, hr1⟩ := listLoop_returns pc r.branch (decide (r.delimiter = "")) hmeta hts
            fileInfos (initialResult r maxKeys)
          exact ⟨setNextMarker r1, by simp only [hg, hr1]⟩
    simp only [bucketHandler.get, hb, hd2, if_false]
    rcases hmk with hmk | ⟨i, ha, h0, h1⟩
    · simp only [hmk, ne_eq, not_true_eq_false, if_false]
      simpa only [initialResult, globPattern, hmk] using tail defaultMaxKeys
    · by_cases he : r.maxKeys = ""
      · simp only [he, ne_eq, not_true_eq_false, if_false]
        simpa only [initialResult, globPattern, he] using tail defaultMaxKeys
      · have hi : ¬ (i < 0 ∨ i > defaultMaxKeys) := by
          simp only [defaultMaxKeys]
          omega
        simp only [ne_eq, he, not_false_eq_true, if_true, ha, hi, if_false]
        simpa only [initialResult, globPattern] using tail i

/-- Witness for C16: the first page of the sample bucket with `max-keys` 1
holds one entry. -/
theorem listing_bounded_witness :
    demoPage "1" "" = .ok demoFirstPage ∧
      ((demoFirstPage.Contents.length + demoFirstPage.CommonPrefixes.length : Nat) : Int) ≤
        demoFirstPage.MaxKeys :=
  ⟨by decide,
    ((listing_bounded demoClient ⟨"images", "master", "1", "/", "", ""⟩).1 demoFirstPage
      (by decide)).2.1⟩

/-! ## Listing page by page -/

/-- C17 fails on the code: the sample bucket holds the directory `dir` and
the file `dir.txt`, sorted by path, and both are listed when `max-keys` is 2.
With `max-keys` 1 the first page holds the common prefix `dir/`, is
truncated, and gives `dir/` as `NextMarker`; the page asked with that marker
is empty and not truncated, because `dir.txt` compares below `dir/`.  The
file `dir.txt` is on no page. -/
theorem pagination_skips_entry :
    demoClient.globFile "images" "master" "*" =
        .ok [⟨"/dir", .DIR, 0, 0⟩, ⟨"/dir.txt", .FILE, 12, 0⟩] ∧
      stringLE "/dir" "/dir.txt" = true ∧
      demoPage "2" "" = .ok demoFullPage ∧ demoFullPage.keys = ["dir.txt", "dir/"] ∧
      demoFullPage.IsTruncated = false ∧
      demoPage "1" "" = .ok demoFirstPage ∧
      demoFirstPage.IsTruncated = true ∧ demoFirstPage.NextMarker = "dir/" ∧
      demoPage "1" demoFirstPage.NextMarker = .ok demoSecondPage ∧
      demoSecondPage.IsTruncated = false ∧
      stringLE "dir.txt" "dir/" = true ∧
      "dir.txt" ∉ demoFirstPage.keys ++ demoSecondPage.keys := by
  exact ⟨rfl, by decide, by decide, by decide, rfl, by decide, rfl, rfl, by decide, rfl,
    by decide, by decide⟩

end Pachyderm.S3
